import Mathlib

/-!
# Verification of the mERRANT edit-span aligner, classifier, annotator and M2 formatters

Shallow embedding of `merrant/utils.py`, `merrant/classification.py`,
`merrant/api.py` and `merrant/io.py`.  Costs computed by the Levenshtein
routines are modelled as exact rationals (`ℚ`); the concrete cost constants
0.1, 0.2, 0.3, 0.5, 1.0 are small decimal fractions, and every comparison the
code performs on them is reproduced exactly.  Tokens are the opaque annotated
tokens produced by the external NLP pipeline: they expose text, lemma (an
opaque equality-comparable identifier), a coarse part-of-speech tag from the
fixed closed UPOS tag set, a morphological feature map, punctuation/digit
flags and character offsets.
-/

/-- The fixed closed part-of-speech tag set of the external tagger
(the spaCy / Universal Dependencies UPOS tags). -/
inductive UPos where
  | ADJ | ADP | ADV | AUX | CCONJ | DET | INTJ | NOUN | NUM | PART
  | PRON | PROPN | PUNCT | SCONJ | SYM | VERB | X | SPACE
  deriving DecidableEq, Repr

/-- The string form of a part-of-speech tag (spaCy's `token.pos_`;
`token.pos` is the integer id, in bijection with it, so a single field
models both). -/
def posToString : UPos → String
  | .ADJ => "ADJ" | .ADP => "ADP" | .ADV => "ADV" | .AUX => "AUX"
  | .CCONJ => "CCONJ" | .DET => "DET" | .INTJ => "INTJ" | .NOUN => "NOUN"
  | .NUM => "NUM" | .PART => "PART" | .PRON => "PRON" | .PROPN => "PROPN"
  | .PUNCT => "PUNCT" | .SCONJ => "SCONJ" | .SYM => "SYM" | .VERB => "VERB"
  | .X => "X" | .SPACE => "SPACE"

/-- An annotated token of the external NLP pipeline (the token interface the
core consumes: `text`, lowercased text, `lemma` as opaque id,
`pos`, morphological feature map, punctuation/digit flags, char offsets). -/
structure Token where
  text : String
  lemmaId : Nat
  pos : UPos
  morph : List (String × List String)
  is_punct : Bool
  is_digit : Bool
  start_char : Nat := 0
  end_char : Nat := 0
  deriving DecidableEq, Repr

/-- Lower-casing of a string, character by character (the `.lower()` of the
external pipeline, modelled with the core character lower-casing; structural
so that concrete instances evaluate). -/
def strLower (s : String) : String := String.mk (s.data.map Char.toLower)

/-- `token.lower_`: the lowercased token text. -/
def Token.lower (t : Token) : String := strLower t.text

/-- `token.morph.get(field_name)`: the list of values of one morphological
feature (empty when the feature is absent). -/
def Token.morphGet (t : Token) (field : String) : List String :=
  match t.morph.lookup field with
  | some vs => vs
  | none => []

/-- An `EditSpan`: a pair of half-open token-index ranges into the source and
target documents, plus the (initially `"UNK"`) error-type tag. -/
structure EditSpan where
  src_start : Nat
  src_end : Nat
  tgt_start : Nat
  tgt_end : Nat
  tag : String := "UNK"
  deriving DecidableEq, Repr

/-- `EditSpan.is_deletion`: the target range is empty. -/
def EditSpan.is_deletion (e : EditSpan) : Bool := e.tgt_end - e.tgt_start = 0

/-- `EditSpan.is_insertion`: the source range is empty. -/
def EditSpan.is_insertion (e : EditSpan) : Bool := e.src_end - e.src_start = 0

/-- `EditSpan.get_label`: deletions are prefixed `U:`, insertions `M:`,
replacements `R:`. -/
def EditSpan.get_label (e : EditSpan) : String :=
  if e.is_deletion then "U:" ++ e.tag
  else if e.is_insertion then "M:" ++ e.tag
  else "R:" ++ e.tag

/-! ## The Levenshtein matrix (`utils.levenshtein_matrix`) -/

/-- Inner loop of `levenshtein_matrix`: given the previous row (walked along
together with the remaining target tokens) and the last value written to the
current row, emit the rest of the current row.  At each target token the cell
is `min(previous_row[j+1] + 1, current_row[j] + 1, previous_row[j] + cmp)`. -/
def levRowAux {T : Type} (cmp : T → T → ℚ) (c1 : T) :
    List ℚ → ℚ → List T → List ℚ
  | p0 :: p1 :: ps, last, c2 :: cs =>
    let v := min (p1 + 1) (min (last + 1) (p0 + cmp c1 c2))
    v :: levRowAux cmp c1 (p1 :: ps) v cs
  | _ :: [], _, _ :: _ => []
  | [], _, _ :: _ => []
  | _, _, [] => []

/-- Outer loop of `levenshtein_matrix`: one row per source token; row `i+1`
starts with the cell `i + 1`. -/
def levRows {T : Type} (cmp : T → T → ℚ) :
    List T → List T → List ℚ → Nat → List (List ℚ)
  | [], _, _, _ => []
  | c1 :: cs, target, prev, i =>
    let row := ((i : ℚ) + 1) :: levRowAux cmp c1 prev ((i : ℚ) + 1) target
    row :: levRows cmp cs target row (i + 1)

/-- `utils.levenshtein_matrix`: the full dynamic-programming cost matrix
between two sequences, first row `0, 1, ..., len(target)`. -/
def levenshtein_matrix {T : Type} (source_tokens target_tokens : List T)
    (cmp : T → T → ℚ) : List (List ℚ) :=
  let row0 := (List.range (target_tokens.length + 1)).map (fun c : ℕ => (c : ℚ))
  row0 :: levRows cmp source_tokens target_tokens row0 0

/-- `utils.levenshtein_distance`: the bottom-right cell of the matrix. -/
def levenshtein_distance {T : Type} (source_tokens target_tokens : List T)
    (cmp : T → T → ℚ) : ℚ :=
  ((levenshtein_matrix source_tokens target_tokens cmp).getLastD []).getLastD 0

/-- `utils._token_sub_cost`: 0 for identical texts, 0.1 for case-insensitively
identical texts, otherwise 0.2 plus 0.3 for a lemma mismatch plus 0.5 for a
part-of-speech mismatch. -/
def token_sub_cost (source_token target_token : Token) : ℚ :=
  if source_token.text = target_token.text then 0
  else if strLower source_token.text = strLower target_token.text then 1/10
  else
    (if source_token.lemmaId ≠ target_token.lemmaId then (3 : ℚ)/10 else 0) +
      (if source_token.pos ≠ target_token.pos then (5 : ℚ)/10 else 0) + 2/10

/-! ## The aligner backtrace (`utils.get_edit_spans`) -/

/-- Matrix indexing `mat[i][j]` (always in range where the code reads it). -/
def matGet (mat : List (List ℚ)) (i j : Nat) : ℚ :=
  (mat.getD i []).getD j 0

/-- The backtrace loop of `get_edit_spans`, from cell `(row, col)` towards
`(0, 0)`: prefer a vertical move if strictly cheaper, else a horizontal move
if strictly cheaper, else move diagonally, recording the new cell as an
alignment point exactly when its cost equals the cost of the cell just left.
The points are produced in decreasing order (the Python loop appends and
reverses afterwards).  Structural recursion on a fuel argument; every loop
iteration decreases `row + col`, so fuel `row + col` is enough. -/
def backtraceAux (mat : List (List ℚ)) : Nat → Nat → Nat → List (Nat × Nat)
  | 0, _, _ => []
  | _ + 1, 0, _ => []
  | _ + 1, _ + 1, 0 => []
  | fuel + 1, row + 1, col + 1 =>
    if matGet mat row (col + 1) < matGet mat (row + 1) (col + 1) then
      backtraceAux mat fuel row (col + 1)
    else if matGet mat (row + 1) col < matGet mat (row + 1) (col + 1) then
      backtraceAux mat fuel (row + 1) col
    else if matGet mat row col = matGet mat (row + 1) (col + 1) then
      (row, col) :: backtraceAux mat fuel row col
    else
      backtraceAux mat fuel row col

/-- The backtrace loop from `(row, col)`, with enough fuel to run to the
matrix border. -/
def backtrace (mat : List (List ℚ)) (row col : Nat) : List (Nat × Nat) :=
  backtraceAux mat (row + col) row col

/-- The alignment-point list of `get_edit_spans`: the reversed backtrace with
the sentence-ending point `(len(source), len(target))` appended. -/
def alignPoints (source_tokens target_tokens : List Token) : List (Nat × Nat) :=
  let mat := levenshtein_matrix source_tokens target_tokens token_sub_cost
  (backtrace mat source_tokens.length target_tokens.length).reverse ++
    [(source_tokens.length, target_tokens.length)]

/-- The span-extraction loop of `get_edit_spans`: walk the alignment points
carrying `prev_source_pos + 1` and `prev_target_pos + 1` (initially `0`,
mirroring `prev_*_pos = -1`); whenever a point does not continue both indices
contiguously, emit the `EditSpan` covering the skipped ranges. -/
def spansFromAlign : Nat → Nat → List (Nat × Nat) → List EditSpan
  | _, _, [] => []
  | ps, pt, (sp, tp) :: rest =>
    (if ps ≠ sp ∨ pt ≠ tp then
        [{ src_start := ps, src_end := sp, tgt_start := pt, tgt_end := tp }]
      else []) ++ spansFromAlign (sp + 1) (tp + 1) rest

/-- `utils.get_edit_spans`: align the two token sequences and return the list
of untagged edit spans. -/
def get_edit_spans (source_tokens target_tokens : List Token) :
    List EditSpan :=
  spansFromAlign 0 0 (alignPoints source_tokens target_tokens)

/-- The first component of the last alignment point (defaulting to `d` on the
empty list); used to state the coverage invariant. -/
def lastFst (d : Nat) : List (Nat × Nat) → Nat
  | [] => d
  | (sp, _) :: rest => lastFst sp rest

/-- The second component of the last alignment point. -/
def lastSnd (d : Nat) : List (Nat × Nat) → Nat
  | [] => d
  | (_, tp) :: rest => lastSnd tp rest

/-- Well-formedness of an alignment-point list relative to the running
positions `(ps, pt)`: each point dominates the running position and the
positions advance strictly past each point. -/
def validPts : Nat → Nat → List (Nat × Nat) → Prop
  | _, _, [] => True
  | ps, pt, (sp, tp) :: rest => ps ≤ sp ∧ pt ≤ tp ∧ validPts (sp + 1) (tp + 1) rest

/-! ## The span classifier (`classification.py`) -/

/-- Equality of the sets (not multisets) of elements of two lists:
`set(xs) == set(ys)`. -/
def sameSet (xs ys : List String) : Bool :=
  xs.all (fun x => ys.contains x) && ys.all (fun y => xs.contains y)

/-- `_is_orth_error`: the concatenated lower-cased token texts agree. -/
def is_orth_error (source_tokens target_tokens : List Token) : Bool :=
  String.join (source_tokens.map Token.lower)
    = String.join (target_tokens.map Token.lower)

/-- `_is_wo_error`: the sets of lower-cased token texts agree. -/
def is_wo_error (source_tokens target_tokens : List Token) : Bool :=
  sameSet (source_tokens.map Token.lower) (target_tokens.map Token.lower)

/-- `_is_punct_error`: the ORTH condition holds once punctuation tokens are
removed from both sides. -/
def is_punct_error (source_tokens target_tokens : List Token) : Bool :=
  is_orth_error (source_tokens.filter (fun t => !t.is_punct))
    (target_tokens.filter (fun t => !t.is_punct))

/-- `_pos_is_subset`: every token's part-of-speech tag lies in `allowed`. -/
def pos_is_subset (tokens : List Token) (allowed : List UPos) : Bool :=
  tokens.all (fun t => allowed.contains t.pos)

/-- `_is_aux_span`: every token is AUX. -/
def is_aux_span (tokens : List Token) : Bool :=
  pos_is_subset tokens [.AUX]

/-- `_is_verbal_span`: every token is AUX/PART/VERB and at least one is VERB. -/
def is_verbal_span (tokens : List Token) : Bool :=
  pos_is_subset tokens [.AUX, .PART, .VERB]
    && tokens.any (fun t => t.pos = .VERB)

/-- `_is_noun_span`: every token is DET/NOUN and at least one is NOUN. -/
def is_noun_span (tokens : List Token) : Bool :=
  pos_is_subset tokens [.DET, .NOUN]
    && tokens.any (fun t => t.pos = .NOUN)

/-- `_match_up_pos_tokens`: positionally zip the source and target tokens of
the given part-of-speech tag, keeping the pairs with equal lemmas. -/
def match_up_pos_tokens (source_tokens target_tokens : List Token)
    (pos : UPos) : List (Token × Token) :=
  (List.zip (source_tokens.filter (fun t => t.pos = pos))
      (target_tokens.filter (fun t => t.pos = pos))).filter
    (fun p => p.1.lemmaId = p.2.lemmaId)

/-- `_morph_match`: the joined values of the `field` morphology agree. -/
def morph_match (source_token target_token : Token) (field : String) : Bool :=
  String.join (source_token.morphGet field)
    = String.join (target_token.morphGet field)

/-- The speller interface of `GenericClassifier`: `None` when no aspell
language is configured, otherwise the external `suggest` function. -/
structure GenericClassifier where
  speller : Option (String → List String)

/-- The aspell suggestions for a word: empty without a speller. -/
def suggestionsOf (c : GenericClassifier) (word : String) : List String :=
  match c.speller with
  | some f => f word
  | none => []

/-- The loop body of the nominal branch of `_get_two_sided_tag`: the first
same-lemma NOUN pair with a `Number` morphology mismatch yields `NOUN:NUM`,
otherwise `NOUN`. -/
def nounLoop : List (Token × Token) → String
  | [] => "NOUN"
  | (s, t) :: rest =>
    if !morph_match s t "Number" then "NOUN:NUM" else nounLoop rest

/-- The loop body of the verbal branch of `_get_two_sided_tag`: the first
same-lemma VERB pair with a `Tense` mismatch yields `VERB:TENSE`; if instead
it has both a `Number` and a `Person` mismatch the loop stops with
`VERB:SVA`; `VERB` when no pair triggers. -/
def verbalLoop : List (Token × Token) → String
  | [] => "VERB"
  | (s, t) :: rest =>
    if !morph_match s t "Tense" then "VERB:TENSE"
    else if !morph_match s t "Number" && !morph_match s t "Person" then
      "VERB:SVA"
    else verbalLoop rest

/-- `GenericClassifier._get_two_sided_tag`. -/
def get_two_sided_tag (source_tokens target_tokens : List Token) : String :=
  if is_aux_span source_tokens && is_aux_span target_tokens then "VERB:TENSE"
  else if is_noun_span source_tokens && is_noun_span target_tokens then
    nounLoop (match_up_pos_tokens source_tokens target_tokens .NOUN)
  else if is_verbal_span source_tokens && is_verbal_span target_tokens then
    verbalLoop (match_up_pos_tokens source_tokens target_tokens .VERB)
  else
    match (target_tokens.map Token.pos).dedup with
    | [pos] => if pos = .AUX then "VERB" else posToString pos
    | _ => "OTHER"

/-- `GenericClassifier._get_one_sided_tag`. -/
def get_one_sided_tag (tokens : List Token) : String :=
  if is_aux_span tokens then "VERB:TENSE"
  else
    match (tokens.map Token.pos).dedup with
    | [pos] => posToString pos
    | _ =>
      if is_verbal_span tokens then "VERB" else "OTHER"

/-- The normalized character Levenshtein distance of `_get_one2one_tag`:
`2·distance / (len(source_text) + len(target_text))`, with the distance
computed by the generic matrix routine over the characters with a binary
0/1 substitution cost. -/
def relativeLev (source_text target_text : String) : ℚ :=
  2 * levenshtein_distance source_text.toList target_text.toList
      (fun x y => if x ≠ y then 1 else 0) /
    ((source_text.length : ℚ) + (target_text.length : ℚ))

/-- `GenericClassifier._get_one2one_tag`. -/
def get_one2one_tag (c : GenericClassifier) (source_token target_token : Token) :
    String :=
  let aspell_suggestions := suggestionsOf c source_token.text
  if aspell_suggestions ≠ [] ∧
      strLower (aspell_suggestions.headD "") ≠ strLower source_token.text then
    if source_token.lemmaId = target_token.lemmaId then
      if source_token.pos = target_token.pos ∧
          (source_token.pos = .NOUN ∨ source_token.pos = .VERB) then
        posToString source_token.pos ++ ":INFL"
      else "MORPH"
    else if aspell_suggestions.any
        (fun s => strLower s = strLower target_token.text) then "SPELL"
    else if relativeLev source_token.text target_token.text < 3/10 then "SPELL"
    else get_two_sided_tag [source_token] [target_token]
  else if source_token.lemmaId = target_token.lemmaId ∧
      source_token.pos ≠ target_token.pos then "MORPH"
  else get_two_sided_tag [source_token] [target_token]

/-- The regular tokens of a span: neither digits nor punctuation. -/
def regularTokens (tokens : List Token) : List Token :=
  tokens.filter (fun t => !t.is_digit && !t.is_punct)

/-- `GenericClassifier.classify_single_span`, on the token contents of the
source and target spans: the ORTH / WO / PUNCT / NUM cascade, then dispatch
to the one-sided, one-to-one or two-sided rule on the regular tokens. -/
def classify_single_span (c : GenericClassifier)
    (source_span target_span : List Token) : String :=
  if is_orth_error source_span target_span then "ORTH"
  else if is_wo_error source_span target_span then "WO"
  else if is_punct_error source_span target_span then "PUNCT"
  else
    let source_regular_tokens := regularTokens source_span
    let target_regular_tokens := regularTokens target_span
    if is_orth_error source_regular_tokens target_regular_tokens then "NUM"
    else if source_regular_tokens = [] then
      get_one_sided_tag target_regular_tokens
    else if target_regular_tokens = [] then
      get_one_sided_tag source_regular_tokens
    else
      match source_regular_tokens, target_regular_tokens with
      | [s], [t] => get_one2one_tag c s t
      | src, tgt => get_two_sided_tag src tgt

/-! ## Documents, annotations and the annotator (`utils.py`, `api.py`) -/

/-- A tokenized document of the external NLP pipeline: the original text plus
the ordered token sequence. -/
structure Doc where
  text : String
  tokens : List Token
  deriving Repr

/-- A corrected target sentence paired with its edit spans
(`utils.TargetSentence`). -/
structure TargetSentence where
  doc : Doc
  edit_spans : List EditSpan
  deriving Repr

/-- An annotated example (`utils.Annotation`): a source document and the
target sentences. -/
structure Annotation where
  source_doc : Doc
  target_sentences : List TargetSentence
  deriving Repr

/-- The token contents `doc[s:e]` of a span. -/
def sliceTokens (d : Doc) (s e : Nat) : List Token :=
  (d.tokens.drop s).take (e - s)

/-- `Classifier.classify`: align the source and target documents and tag
every resulting edit span with `classify_single_span`. -/
def Classifier_classify (c : GenericClassifier) (source_doc target_doc : Doc) :
    List EditSpan :=
  (get_edit_spans source_doc.tokens target_doc.tokens).map fun e =>
    { e with
      tag := classify_single_span c (sliceTokens source_doc e.src_start e.src_end)
          (sliceTokens target_doc e.tgt_start e.tgt_end) }

/-- `api.Annotator`: the stored construction arguments plus the resources
installed by initialization (`None` until then). -/
structure Annotator where
  spacy_model : String
  aspell_lang : Option String
  nlp : Option (String → Doc)
  classifier : Option GenericClassifier
  initialized : Bool

/-- `Annotator.__init__`: store the model name and aspell language; nothing
is loaded and the annotator is not initialized. -/
def newAnnotator (spacy_model : String) (aspell_lang : Option String) :
    Annotator :=
  { spacy_model := spacy_model, aspell_lang := aspell_lang,
    nlp := none, classifier := none, initialized := false }

/-- `Annotator.initialize`: load the external tokenizer for the stored model
name, build the classifier (with a speller exactly when an aspell language
was configured) and mark the annotator initialized.  The external loaders
(model-name to tokenizer, language code to `suggest`) are passed as
arguments. -/
def Annotator.initializeWith (a : Annotator)
    (load_spacy : String → String → Doc)
    (load_speller : String → String → List String) : Annotator :=
  { a with
    nlp := some (load_spacy a.spacy_model),
    classifier := some ⟨a.aspell_lang.map load_speller⟩,
    initialized := true }

/-- `Annotator.annotate`: invalid-state error before initialization,
invalid-argument error when `target_sentences` is a single string
(`isinstance(target_sentences, str)`, modelled by the left summand);
otherwise tokenize the source once and each target once, align and classify
each pair, and assemble the `Annotation`. -/
def Annotator.annotate (a : Annotator) (source_sentence : String)
    (target_sentences : String ⊕ List String) :
    Except String Annotation :=
  if a.initialized = false then .error "Annotator not initialized."
  else
    match target_sentences with
    | .inl _ => .error "target_sentences must be a list, not a string."
    | .inr targets =>
      match a.nlp, a.classifier with
      | some nlp, some c =>
        let source_doc := nlp source_sentence
        .ok { source_doc := source_doc,
              target_sentences := targets.map fun t =>
                { doc := nlp t,
                  edit_spans := Classifier_classify c source_doc (nlp t) } }
      | _, _ => .error "TypeError: NoneType is not callable"

/-! ## The M2 formatters (`io.py`) -/

/-- A decimal digit character. -/
def digitChar : Nat → Char
  | 0 => '0' | 1 => '1' | 2 => '2' | 3 => '3' | 4 => '4'
  | 5 => '5' | 6 => '6' | 7 => '7' | 8 => '8' | _ => '9'

/-- Decimal digits of a number, most significant first, in front of `acc`;
fuel-based structural recursion (`fuel = n` is always enough). -/
def natReprAux : Nat → Nat → List Char → List Char
  | 0, n, acc => digitChar n :: acc
  | fuel + 1, n, acc =>
    if n < 10 then digitChar n :: acc
    else natReprAux fuel (n / 10) (digitChar (n % 10) :: acc)

/-- The decimal representation of a natural number (the `%d` formatting of
the M2 line templates). -/
def natRepr (n : Nat) : String := String.mk (natReprAux n n [])

/-- `_NOOP_M2_LINE % annotator_id`. -/
def noopLine (annotator_id : Nat) : String :=
  "A -1 -1|||noop|||-NONE-|||REQUIRED|||-NONE-|||" ++ natRepr annotator_id

/-- `_M2_LINE % (start, end, label, target_text, annotator_id)`. -/
def m2Line (startN endN : Nat) (label target_text : String)
    (annotator_id : Nat) : String :=
  "A " ++ natRepr startN ++ " " ++ natRepr endN ++ "|||" ++ label ++ "|||" ++
    target_text ++ "|||REQUIRED|||-NONE-|||" ++ natRepr annotator_id

/-- The character offset at which token index `s` starts (the external
`Span.start_char`; for an index past the last token: the text length). -/
def spanStartChar (d : Doc) (s : Nat) : Nat :=
  match d.tokens.get? s with
  | some t => t.start_char
  | none => d.text.length

/-- The character offset at which the token before index `e` ends (the
external `Span.end_char`). -/
def spanEndChar (d : Doc) (e : Nat) : Nat :=
  if e = 0 then 0
  else
    match d.tokens.get? (e - 1) with
    | some t => t.end_char
    | none => d.text.length

/-- The text of the span `doc[s:e]` (the external `Span.text`, with the
`IndexError` on degenerate spans recovered as the empty string). -/
def spanText (d : Doc) (s e : Nat) : String :=
  if s < e then
    String.mk ((d.text.toList.drop (spanStartChar d s)).take
      (spanEndChar d e - spanStartChar d s))
  else ""

/-- One `A` line of `M2CharFormatter.format`: character offsets; insertions
collapse to the end position, left-padding the target text with spaces when
the start offset exceeds the end offset. -/
def m2CharSpanLine (source_doc target_doc : Doc) (e : EditSpan)
    (annotator_id : Nat) : String :=
  let target_text := spanText target_doc e.tgt_start e.tgt_end
  let start_char := spanStartChar source_doc e.src_start
  let end_char := spanEndChar source_doc e.src_end
  if e.src_start = e.src_end then
    m2Line end_char end_char e.get_label
      (if start_char > end_char then
          String.mk (List.replicate (start_char - end_char) ' ') ++ target_text
        else target_text)
      annotator_id
  else m2Line start_char end_char e.get_label target_text annotator_id

/-- One `A` line of `M2TokFormatter.format`: token offsets. -/
def m2TokSpanLine (target_doc : Doc) (e : EditSpan) (annotator_id : Nat) :
    String :=
  m2Line e.src_start e.src_end e.get_label
    (spanText target_doc e.tgt_start e.tgt_end) annotator_id

/-- The lines one target sentence contributes to the character-level M2
block: the no-op line when it has no edit spans, else one line per span. -/
def m2CharBlock (source_doc : Doc) (annotator_id : Nat)
    (ts : TargetSentence) : List String :=
  (if ts.edit_spans.isEmpty then [noopLine annotator_id] else []) ++
    ts.edit_spans.map fun e => m2CharSpanLine source_doc ts.doc e annotator_id

/-- The lines one target sentence contributes to the token-level M2 block. -/
def m2TokBlock (annotator_id : Nat) (ts : TargetSentence) : List String :=
  (if ts.edit_spans.isEmpty then [noopLine annotator_id] else []) ++
    ts.edit_spans.map fun e => m2TokSpanLine ts.doc e annotator_id

/-- `enumerate(annotation.target_sentences)` folded over a per-target block
function. -/
def m2Blocks (block : Nat → TargetSentence → List String) :
    Nat → List TargetSentence → List String
  | _, [] => []
  | i, ts :: rest => block i ts ++ m2Blocks block (i + 1) rest

/-- The line list built by `M2CharFormatter.format`: the `S` line, the
per-target blocks, and the trailing empty line. -/
def m2CharLines (a : Annotation) : List String :=
  ("S " ++ a.source_doc.text) ::
    (m2Blocks (m2CharBlock a.source_doc) 0 a.target_sentences ++ [""])

/-- `M2CharFormatter.format`: the lines joined with newlines. -/
def M2CharFormatter_format (a : Annotation) : String :=
  String.intercalate "\n" (m2CharLines a)

/-- The line list built by `M2TokFormatter.format`: the space-joined token
texts as `S` line, the per-target blocks, and the trailing empty line. -/
def m2TokLines (a : Annotation) : List String :=
  ("S " ++ String.intercalate " " (a.source_doc.tokens.map Token.text)) ::
    (m2Blocks m2TokBlock 0 a.target_sentences ++ [""])

/-- `M2TokFormatter.format`: the lines joined with newlines. -/
def M2TokFormatter_format (a : Annotation) : String :=
  String.intercalate "\n" (m2TokLines a)

/-- Recognizer for no-op M2 lines: the only lines of either formatter whose
third character is `-` (span lines put a decimal digit there, the `S` line
starts with `S`). -/
def isNoopLine (l : String) : Bool :=
  match l.data with
  | 'A' :: ' ' :: '-' :: _ => true
  | _ => false

/-- The annotator indices of the target sentences without edit spans,
counting from `i`. -/
def emptySpanIdx : Nat → List TargetSentence → List Nat
  | _, [] => []
  | i, ts :: rest =>
    (if ts.edit_spans.isEmpty then [i] else []) ++ emptySpanIdx (i + 1) rest

/-- An edit span with the source and target sides exchanged (used to derive
the target-side coverage invariant from the source-side one). -/
def EditSpan.swapSides (e : EditSpan) : EditSpan :=
  { src_start := e.tgt_start, src_end := e.tgt_end,
    tgt_start := e.src_start, tgt_end := e.src_end, tag := e.tag }

/-- A plain (non-punctuation, non-digit) token, used to instantiate the
theorems at concrete inputs. -/
def sampleTok (txt : String) (lem : Nat) (p : UPos)
    (m : List (String × List String)) : Token :=
  { text := txt, lemmaId := lem, pos := p, morph := m,
    is_punct := false, is_digit := false }

/-- A punctuation token, used to instantiate the theorems at concrete
inputs. -/
def samplePunct (txt : String) (lem : Nat) : Token :=
  { text := txt, lemmaId := lem, pos := .PUNCT, morph := [],
    is_punct := true, is_digit := false }

/-- A digit token, used to instantiate the theorems at concrete inputs. -/
def sampleDigit (txt : String) (lem : Nat) : Token :=
  { text := txt, lemmaId := lem, pos := .NUM, morph := [],
    is_punct := false, is_digit := true }

/-! ## Theorems: Levenshtein matrix facts -/

theorem token_sub_cost_nonneg (a b : Token) : 0 ≤ token_sub_cost a b := by
  unfold token_sub_cost
  split
  · exact le_refl _
  split
  · norm_num
  have h1 : (0:ℚ) ≤ if a.lemmaId ≠ b.lemmaId then (3:ℚ)/10 else 0 := by
    split <;> norm_num
  have h2 : (0:ℚ) ≤ if a.pos ≠ b.pos then (5:ℚ)/10 else 0 := by
    split <;> norm_num
  linarith

theorem token_sub_cost_self (a : Token) : token_sub_cost a a = 0 := by
  unfold token_sub_cost
  simp

theorem levRowAux_nonneg {T : Type} (cmp : T → T → ℚ)
    (hcmp : ∀ a b, 0 ≤ cmp a b) (c1 : T) :
    ∀ (ts : List T) (prev : List ℚ) (last : ℚ),
      (∀ x ∈ prev, 0 ≤ x) → 0 ≤ last →
      ∀ x ∈ levRowAux cmp c1 prev last ts, 0 ≤ x := by
  intro ts
  induction ts with
  | nil =>
    intro prev last _ _ x hx
    simp [levRowAux] at hx
  | cons c2 cs ih =>
    intro prev last hprev hlast x hx
    match prev with
    | [] => simp [levRowAux] at hx
    | [p0] => simp [levRowAux] at hx
    | p0 :: p1 :: ps =>
      have hp0 : 0 ≤ p0 := hprev p0 (by simp)
      have hp1 : 0 ≤ p1 := hprev p1 (by simp)
      have hv : 0 ≤ min (p1 + 1) (min (last + 1) (p0 + cmp c1 c2)) := by
        have := hcmp c1 c2
        refine le_min (by linarith) (le_min (by linarith) (by linarith))
      simp only [levRowAux, List.mem_cons] at hx
      rcases hx with rfl | hx
      · exact hv
      · exact ih (p1 :: ps) _ (by intro y hy; exact hprev y (List.mem_cons_of_mem _ hy)) hv x hx

theorem levRows_nonneg {T : Type} (cmp : T → T → ℚ)
    (hcmp : ∀ a b, 0 ≤ cmp a b) :
    ∀ (src target : List T) (prev : List ℚ) (i : Nat),
      (∀ x ∈ prev, 0 ≤ x) →
      ∀ r ∈ levRows cmp src target prev i, ∀ x ∈ r, 0 ≤ x := by
  intro src
  induction src with
  | nil =>
    intro target prev i _ r hr
    simp [levRows] at hr
  | cons c1 cs ih =>
    intro target prev i hprev r hr
    have hrow : ∀ x ∈ ((i : ℚ) + 1) :: levRowAux cmp c1 prev ((i : ℚ) + 1) target,
        0 ≤ x := by
      intro x hx
      rcases List.mem_cons.mp hx with rfl | hx
      · positivity
      · exact levRowAux_nonneg cmp hcmp c1 target prev _ hprev (by positivity) x hx
    simp only [levRows, List.mem_cons] at hr
    rcases hr with rfl | hr
    · exact hrow
    · exact ih target _ (i + 1) hrow r hr

theorem getD_nonneg_of_nonneg (l : List ℚ) (j : Nat)
    (h : ∀ x ∈ l, 0 ≤ x) : 0 ≤ l.getD j 0 := by
  induction l generalizing j with
  | nil => simp
  | cons a l ih =>
    cases j with
    | zero => exact h a (by simp)
    | succ j =>
      simp only [List.getD_cons_succ]
      exact ih j (fun x hx => h x (List.mem_cons_of_mem _ hx))

theorem mem_getD_mem (m : List (List ℚ)) (i : Nat) (x : ℚ)
    (hx : x ∈ m.getD i []) : ∃ r ∈ m, x ∈ r := by
  induction m generalizing i with
  | nil => simp at hx
  | cons r rs ih =>
    cases i with
    | zero => exact ⟨r, by simp, hx⟩
    | succ i =>
      obtain ⟨r2, hr2, hx2⟩ := ih i (by simpa using hx)
      exact ⟨r2, List.mem_cons_of_mem _ hr2, hx2⟩

theorem matGet_nonneg {T : Type} (source target : List T) (cmp : T → T → ℚ)
    (hcmp : ∀ a b, 0 ≤ cmp a b) (i j : Nat) :
    0 ≤ matGet (levenshtein_matrix source target cmp) i j := by
  unfold matGet levenshtein_matrix
  have hrow0 : ∀ x ∈ (List.range (target.length + 1)).map (fun c : ℕ => (c : ℚ)),
      0 ≤ x := by
    intro x hx
    simp only [List.mem_map] at hx
    obtain ⟨c, _, rfl⟩ := hx
    exact Nat.cast_nonneg c
  cases i with
  | zero =>
    exact getD_nonneg_of_nonneg _ j hrow0
  | succ i =>
    simp only [List.getD_cons_succ]
    apply getD_nonneg_of_nonneg
    intro x hx
    obtain ⟨r, hr, hxr⟩ := mem_getD_mem _ i x hx
    exact levRows_nonneg cmp hcmp source target _ 0 hrow0 r hr x hxr

theorem levRowAux_length {T : Type} (cmp : T → T → ℚ) (c1 : T) :
    ∀ (ts : List T) (prev : List ℚ) (last : ℚ),
      prev.length = ts.length + 1 →
      (levRowAux cmp c1 prev last ts).length = ts.length := by
  intro ts
  induction ts with
  | nil =>
    intro prev last _
    cases prev with
    | nil => simp [levRowAux]
    | cons p0 ps => cases ps <;> simp [levRowAux]
  | cons c2 cs ih =>
    intro prev last hlen
    match prev, hlen with
    | p0 :: p1 :: ps, hlen =>
      simp only [levRowAux, List.length_cons]
      rw [ih (p1 :: ps) _ (by simpa using hlen)]

theorem levRowAux_getD_zero {T : Type} (cmp : T → T → ℚ) (c1 : T)
    (hcmp : ∀ a b, 0 ≤ cmp a b) :
    ∀ (j : Nat) (ts : List T) (prev : List ℚ) (last : ℚ),
      prev.getD j 0 = 0 → (∀ x ∈ prev, 0 ≤ x) → 0 ≤ last →
      j + 1 < prev.length → j < ts.length →
      cmp c1 (ts.getD j c1) = 0 →
      (levRowAux cmp c1 prev last ts).getD j 0 = 0 := by
  intro j
  induction j with
  | zero =>
    intro ts prev last hp0 hprev hlast hplen htlen hcz
    match ts, htlen with
    | c2 :: cs, _ =>
      match prev, hplen with
      | p0 :: p1 :: ps, _ =>
        have hp0' : p0 = 0 := by simpa using hp0
        have hcz' : cmp c1 c2 = 0 := by simpa using hcz
        have hp1 : 0 ≤ p1 := hprev p1 (by simp)
        simp only [levRowAux, List.getD_cons_zero]
        subst hp0'
        rw [hcz']
        have h1 : (0 : ℚ) ≤ p1 + 1 := by linarith
        have h2 : (0 : ℚ) ≤ last + 1 := by linarith
        simp [min_def]
        split <;> split <;> linarith
  | succ j ih =>
    intro ts prev last hpj hprev hlast hplen htlen hcz
    match ts, htlen with
    | c2 :: cs, htlen2 =>
      match prev, hplen with
      | p0 :: p1 :: ps, hplen2 =>
        have hp0 : 0 ≤ p0 := hprev p0 (by simp)
        have hp1 : 0 ≤ p1 := hprev p1 (by simp)
        have hv : 0 ≤ min (p1 + 1) (min (last + 1) (p0 + cmp c1 c2)) := by
          have := hcmp c1 c2
          exact le_min (by linarith) (le_min (by linarith) (by linarith))
        simp only [levRowAux, List.getD_cons_succ]
        exact ih cs (p1 :: ps) _ (by simpa using hpj)
          (fun x hx => hprev x (List.mem_cons_of_mem _ hx)) hv
          (by simpa using hplen2) (by simpa using htlen2) (by simpa using hcz)

theorem levRows_diag {T : Type} (cmp : T → T → ℚ)
    (hcmp : ∀ a b, 0 ≤ cmp a b) (S : List T)
    (hdiag : ∀ (i : Nat) (d : T), i < S.length → cmp (S.getD i d) (S.getD i d) = 0) :
    ∀ (rest : List T) (prev : List ℚ) (i : Nat),
      rest = S.drop i → prev.length = S.length + 1 →
      (∀ x ∈ prev, 0 ≤ x) → prev.getD i 0 = 0 →
      ∀ k, k < rest.length →
        ((levRows cmp rest S prev i).getD k []).getD (i + k + 1) 0 = 0 := by
  intro rest
  induction rest with
  | nil => intro prev i _ _ _ _ k hk; simp at hk
  | cons c1 cs ih =>
    intro prev i hdrop hplen hprev hpi k hk
    have hiS : i < S.length := by
      by_contra h
      rw [List.drop_eq_nil_of_le (by omega)] at hdrop
      simp at hdrop
    have hget : S.get? i = some c1 := by
      have h0 : (S.drop i).get? 0 = some c1 := by rw [← hdrop]; rfl
      rw [List.get?_drop] at h0
      simpa using h0
    have hc1 : S.getD i c1 = c1 := by
      show (S.get? i).getD c1 = c1
      rw [hget]
      rfl
    have hcmpc1 : cmp c1 (S.getD i c1) = 0 := by
      rw [hc1]
      have h2 := hdiag i c1 hiS
      rwa [hc1] at h2
    have hrow : (levRowAux cmp c1 prev ((i : ℚ) + 1) S).getD i 0 = 0 := by
      apply levRowAux_getD_zero cmp c1 hcmp i S prev _ hpi hprev (by positivity)
        (by omega) hiS hcmpc1
    cases k with
    | zero =>
      simp only [levRows, List.getD_cons_zero, List.getD_cons_succ]
      simpa using hrow
    | succ k =>
      simp only [levRows, List.getD_cons_succ]
      have hlen2 : (((i : ℚ) + 1) :: levRowAux cmp c1 prev ((i : ℚ) + 1) S).length
          = S.length + 1 := by
        simp [levRowAux_length cmp c1 S prev _ hplen]
      have hnn2 : ∀ x ∈ ((i : ℚ) + 1) :: levRowAux cmp c1 prev ((i : ℚ) + 1) S,
          0 ≤ x := by
        intro x hx
        rcases List.mem_cons.mp hx with rfl | hx
        · positivity
        · exact levRowAux_nonneg cmp hcmp c1 S prev _ hprev (by positivity) x hx
      have hdrop2 : cs = S.drop (i + 1) := by
        have h3 := congrArg List.tail hdrop
        simpa [List.tail_drop] using h3
      have hres := ih (((i : ℚ) + 1) :: levRowAux cmp c1 prev ((i : ℚ) + 1) S)
        (i + 1) hdrop2 hlen2 hnn2 (by simpa using hrow) k (by simpa using hk)
      have harith : i + 1 + k + 1 = i + (k + 1) + 1 := by omega
      rwa [harith] at hres

theorem matGet_diag_zero {T : Type} (cmp : T → T → ℚ)
    (hcmp : ∀ a b, 0 ≤ cmp a b) (S : List T)
    (hdiag : ∀ (i : Nat) (d : T), i < S.length → cmp (S.getD i d) (S.getD i d) = 0) :
    ∀ k, k ≤ S.length → matGet (levenshtein_matrix S S cmp) k k = 0 := by
  intro k hk
  unfold matGet levenshtein_matrix
  cases k with
  | zero => simp [List.range_succ_eq_map]
  | succ k =>
    simp only [List.getD_cons_succ]
    have hres := levRows_diag cmp hcmp S hdiag S
      ((List.range (S.length + 1)).map (fun c : ℕ => (c : ℚ))) 0 rfl
      (by simp) (by
        intro x hx
        simp only [List.mem_map] at hx
        obtain ⟨c, _, rfl⟩ := hx
        exact Nat.cast_nonneg c)
      (by simp [List.range_succ_eq_map])
      k (by omega)
    simpa using hres

theorem backtraceAux_diag (mat : List (List ℚ))
    (hnn : ∀ i j, 0 ≤ matGet mat i j) (m : Nat)
    (hdz : ∀ k, k ≤ m → matGet mat k k = 0) :
    ∀ (k : Nat) (fuel : Nat), 2 * k ≤ fuel → k ≤ m →
      backtraceAux mat fuel k k =
        (List.range k).reverse.map (fun j => (j, j)) := by
  intro k
  induction k with
  | zero =>
    intro fuel _ _
    cases fuel <;> simp [backtraceAux]
  | succ k ih =>
    intro fuel hfuel hk
    match fuel, hfuel with
    | fuel + 1, hfuel =>
      have hd1 : matGet mat (k + 1) (k + 1) = 0 := hdz (k + 1) hk
      have hd0 : matGet mat k k = 0 := hdz k (by omega)
      have hv : ¬ matGet mat k (k + 1) < matGet mat (k + 1) (k + 1) := by
        rw [hd1]
        exact not_lt.mpr (hnn k (k + 1))
      have hh : ¬ matGet mat (k + 1) k < matGet mat (k + 1) (k + 1) := by
        rw [hd1]
        exact not_lt.mpr (hnn (k + 1) k)
      rw [backtraceAux, if_neg hv, if_neg hh, if_pos (by rw [hd0, hd1]),
        ih fuel (by omega) (by omega)]
      rw [List.range_succ, List.reverse_append]
      simp

theorem spansFromAlign_diag :
    ∀ (n p : Nat),
      spansFromAlign p p ((List.range' p n).map (fun j => (j, j))) = [] := by
  intro n
  induction n with
  | zero => intro p; simp [spansFromAlign]
  | succ n ih =>
    intro p
    rw [List.range'_succ]
    simp only [List.map_cons, spansFromAlign]
    rw [if_neg (by simp)]
    simpa using ih (p + 1)

/-- **C7.** For every token sequence `S`, aligning `S` with itself yields the
empty list of edit spans: `get_edit_spans S S = []`. -/
theorem get_edit_spans_self (S : List Token) : get_edit_spans S S = [] := by
  unfold get_edit_spans alignPoints
  have hnn : ∀ i j, 0 ≤ matGet (levenshtein_matrix S S token_sub_cost) i j :=
    matGet_nonneg S S token_sub_cost token_sub_cost_nonneg
  have hdz : ∀ k, k ≤ S.length →
      matGet (levenshtein_matrix S S token_sub_cost) k k = 0 :=
    matGet_diag_zero token_sub_cost token_sub_cost_nonneg S
      (fun i d _ => token_sub_cost_self (S.getD i d))
  have hbt := backtraceAux_diag (levenshtein_matrix S S token_sub_cost) hnn
    S.length hdz S.length (S.length + S.length) (by omega) (le_refl _)
  unfold backtrace
  simp only [hbt, List.map_reverse, List.reverse_reverse]
  have hpts : (List.range S.length).map (fun j => (j, j)) ++
      [(S.length, S.length)] =
      (List.range' 0 (S.length + 1)).map (fun j => (j, j)) := by
    rw [List.range_eq_range']
    rw [show S.length + 1 = S.length + 1 from rfl]
    rw [List.range'_concat]
    simp
  rw [hpts, spansFromAlign_diag]

/-- **C2.** The aligner's substitution cost: 0 for identical texts; 0.1 for
case-insensitively identical but not identical texts; otherwise 0.2 plus 0.3
for a lemma mismatch plus 0.5 for a part-of-speech mismatch, hence between
0.2 and 1. -/
theorem token_sub_cost_spec (a b : Token) :
    (a.text = b.text → token_sub_cost a b = 0) ∧
    (a.text ≠ b.text → strLower a.text = strLower b.text →
      token_sub_cost a b = 1/10) ∧
    (a.text ≠ b.text → strLower a.text ≠ strLower b.text →
      token_sub_cost a b =
        2/10 + (if a.lemmaId ≠ b.lemmaId then (3 : ℚ)/10 else 0)
          + (if a.pos ≠ b.pos then (5 : ℚ)/10 else 0) ∧
      2/10 ≤ token_sub_cost a b ∧ token_sub_cost a b ≤ 1) := by
  refine ⟨fun h => by simp [token_sub_cost, h], fun h h2 => by
    simp [token_sub_cost, h, h2], fun h h2 => ?_⟩
  have hval : token_sub_cost a b =
      (if a.lemmaId ≠ b.lemmaId then (3 : ℚ)/10 else 0)
        + (if a.pos ≠ b.pos then (5 : ℚ)/10 else 0) + 2/10 := by
    simp [token_sub_cost, h, h2]
  refine ⟨by rw [hval]; ring, ?_, ?_⟩ <;> rw [hval] <;> split <;> split <;>
    norm_num

/-- Witness for C2 at concrete tokens with different texts, lemmas and
part-of-speech tags: the cost is `0.2 + 0.3 + 0.5 = 1`. -/
theorem token_sub_cost_spec_witness :
    token_sub_cost (sampleTok "Dog" 1 .NOUN []) (sampleTok "cat" 2 .VERB [])
      = 1 := by
  have h := (token_sub_cost_spec (sampleTok "Dog" 1 .NOUN [])
    (sampleTok "cat" 2 .VERB [])).2.2 (by decide) (by decide)
  rw [h.1, if_pos (by decide), if_pos (by decide)]
  norm_num

/-! ## Theorems: the aligner output invariant (C1) -/

theorem lastFst_cons (d sp tp : Nat) (rest : List (Nat × Nat)) :
    lastFst d ((sp, tp) :: rest) = lastFst sp rest := rfl

theorem lastSnd_cons (d sp tp : Nat) (rest : List (Nat × Nat)) :
    lastSnd d ((sp, tp) :: rest) = lastSnd tp rest := rfl

theorem lastFst_append_single (xs : List (Nat × Nat)) (d m n : Nat) :
    lastFst d (xs ++ [(m, n)]) = m := by
  induction xs generalizing d with
  | nil => rfl
  | cons p t ih => rw [List.cons_append, show p = (p.1, p.2) from rfl,
      lastFst_cons]; exact ih p.1

theorem lastSnd_append_single (xs : List (Nat × Nat)) (d m n : Nat) :
    lastSnd d (xs ++ [(m, n)]) = n := by
  induction xs generalizing d with
  | nil => rfl
  | cons p t ih => rw [List.cons_append, show p = (p.1, p.2) from rfl,
      lastSnd_cons]; exact ih p.2

theorem validPts_mem :
    ∀ (pts : List (Nat × Nat)) (ps pt : Nat), validPts ps pt pts →
      ∀ p ∈ pts, ps ≤ p.1 ∧ pt ≤ p.2 := by
  intro pts
  induction pts with
  | nil => intro ps pt _ p hp; simp at hp
  | cons q rest ih =>
    intro ps pt h p hp
    obtain ⟨sp, tp⟩ := q
    obtain ⟨h1, h2, h3⟩ := h
    rcases List.mem_cons.mp hp with rfl | hp
    · exact ⟨h1, h2⟩
    · have := ih (sp + 1) (tp + 1) h3 p hp
      exact ⟨by omega, by omega⟩

theorem le_lastFst :
    ∀ (pts : List (Nat × Nat)) (a b d : Nat), validPts a b pts → d ≤ a →
      d ≤ lastFst d pts := by
  intro pts
  induction pts with
  | nil => intro a b d _ _; exact le_refl d
  | cons q rest ih =>
    intro a b d h hd
    obtain ⟨sp, tp⟩ := q
    obtain ⟨h1, h2, h3⟩ := h
    rw [lastFst_cons]
    have := ih (sp + 1) (tp + 1) sp h3 (by omega)
    omega

theorem le_lastSnd :
    ∀ (pts : List (Nat × Nat)) (a b d : Nat), validPts a b pts → d ≤ b →
      d ≤ lastSnd d pts := by
  intro pts
  induction pts with
  | nil => intro a b d _ _; exact le_refl d
  | cons q rest ih =>
    intro a b d h hd
    obtain ⟨sp, tp⟩ := q
    obtain ⟨h1, h2, h3⟩ := h
    rw [lastSnd_cons]
    have := ih (sp + 1) (tp + 1) tp h3 (by omega)
    omega

theorem validPts_replace_last :
    ∀ (xs : List (Nat × Nat)) (a b r c r2 c2 : Nat),
      validPts a b (xs ++ [(r, c)]) → r ≤ r2 → c ≤ c2 →
      validPts a b (xs ++ [(r2, c2)]) := by
  intro xs
  induction xs with
  | nil =>
    intro a b r c r2 c2 h hr hc
    obtain ⟨h1, h2, _⟩ := h
    exact ⟨by omega, by omega, trivial⟩
  | cons q t ih =>
    intro a b r c r2 c2 h hr hc
    obtain ⟨sp, tp⟩ := q
    obtain ⟨h1, h2, h3⟩ := h
    exact ⟨h1, h2, ih (sp + 1) (tp + 1) r c r2 c2 h3 hr hc⟩

theorem validPts_append_one :
    ∀ (xs : List (Nat × Nat)) (a b r c r2 c2 : Nat),
      validPts a b (xs ++ [(r, c)]) → r < r2 → c < c2 →
      validPts a b (xs ++ [(r, c), (r2, c2)]) := by
  intro xs
  induction xs with
  | nil =>
    intro a b r c r2 c2 h hr hc
    obtain ⟨h1, h2, _⟩ := h
    exact ⟨h1, h2, by omega, by omega, trivial⟩
  | cons q t ih =>
    intro a b r c r2 c2 h hr hc
    obtain ⟨sp, tp⟩ := q
    obtain ⟨h1, h2, h3⟩ := h
    exact ⟨h1, h2, ih (sp + 1) (tp + 1) r c r2 c2 h3 hr hc⟩

theorem backtraceAux_valid (mat : List (List ℚ)) :
    ∀ (fuel row col : Nat),
      validPts 0 0 ((backtraceAux mat fuel row col).reverse ++ [(row, col)]) := by
  intro fuel
  induction fuel with
  | zero =>
    intro row col
    exact ⟨Nat.zero_le _, Nat.zero_le _, trivial⟩
  | succ fuel ih =>
    intro row col
    match row, col with
    | 0, col => exact ⟨Nat.zero_le _, Nat.zero_le _, trivial⟩
    | row + 1, 0 => exact ⟨Nat.zero_le _, Nat.zero_le _, trivial⟩
    | row + 1, col + 1 =>
      rw [backtraceAux]
      split
      · exact validPts_replace_last _ 0 0 row (col + 1) (row + 1) (col + 1)
          (ih row (col + 1)) (by omega) (by omega)
      split
      · exact validPts_replace_last _ 0 0 (row + 1) col (row + 1) (col + 1)
          (ih (row + 1) col) (by omega) (by omega)
      split
      · rw [List.reverse_cons, List.append_assoc]
        exact validPts_append_one _ 0 0 row col (row + 1) (col + 1)
          (ih row col) (by omega) (by omega)
      · exact validPts_replace_last _ 0 0 row col (row + 1) (col + 1)
          (ih row col) (by omega) (by omega)

theorem alignPoints_valid (S T : List Token) :
    validPts 0 0 (alignPoints S T) ∧
    lastFst 0 (alignPoints S T) = S.length ∧
    lastSnd 0 (alignPoints S T) = T.length := by
  unfold alignPoints backtrace
  exact ⟨backtraceAux_valid _ _ _ _, lastFst_append_single _ _ _ _,
    lastSnd_append_single _ _ _ _⟩

theorem spansFromAlign_bounds :
    ∀ (pts : List (Nat × Nat)) (ps pt : Nat), validPts ps pt pts →
      ∀ e ∈ spansFromAlign ps pt pts,
        ps ≤ e.src_start ∧ e.src_start ≤ e.src_end ∧
        e.src_end ≤ lastFst ps pts ∧
        pt ≤ e.tgt_start ∧ e.tgt_start ≤ e.tgt_end ∧
        e.tgt_end ≤ lastSnd pt pts ∧
        (e.src_start < e.src_end ∨ e.tgt_start < e.tgt_end) := by
  intro pts
  induction pts with
  | nil => intro ps pt _ e he; simp [spansFromAlign] at he
  | cons q rest ih =>
    intro ps pt h e he
    obtain ⟨sp, tp⟩ := q
    obtain ⟨h1, h2, h3⟩ := h
    rw [lastFst_cons, lastSnd_cons]
    have hsp : sp ≤ lastFst sp rest := le_lastFst rest (sp + 1) (tp + 1) sp h3 (by omega)
    have htp : tp ≤ lastSnd tp rest := le_lastSnd rest (sp + 1) (tp + 1) tp h3 (by omega)
    simp only [spansFromAlign, List.mem_append] at he
    rcases he with he | he
    · have hguard : ps ≠ sp ∨ pt ≠ tp := by
        by_contra hng
        push_neg at hng
        rw [if_neg (by tauto)] at he
        simp at he
      rw [if_pos hguard] at he
      simp only [List.mem_singleton] at he
      subst he
      refine ⟨le_refl _, h1, hsp, le_refl _, h2, htp, ?_⟩
      show ps < sp ∨ pt < tp
      omega
    · have hb := ih (sp + 1) (tp + 1) h3 e he
      cases rest with
      | nil => simp [spansFromAlign] at he
      | cons q2 t2 =>
        obtain ⟨sq, tq⟩ := q2
        rw [lastFst_cons] at hb ⊢
        rw [lastSnd_cons] at hb ⊢
        exact ⟨by omega, hb.2.1, hb.2.2.1, by omega, hb.2.2.2.2.1,
          hb.2.2.2.2.2.1, hb.2.2.2.2.2.2⟩

theorem spansFromAlign_chain :
    ∀ (pts : List (Nat × Nat)) (ps pt : Nat), validPts ps pt pts →
      List.Chain'
        (fun e1 e2 => e1.src_end < e2.src_start ∧ e1.tgt_end < e2.tgt_start)
        (spansFromAlign ps pt pts) := by
  intro pts
  induction pts with
  | nil => intro ps pt _; simp [spansFromAlign]
  | cons q rest ih =>
    intro ps pt h
    obtain ⟨sp, tp⟩ := q
    obtain ⟨h1, h2, h3⟩ := h
    have htail := ih (sp + 1) (tp + 1) h3
    simp only [spansFromAlign]
    split
    · simp only [List.singleton_append]
      rw [List.chain'_cons']
      refine ⟨?_, htail⟩
      intro y hy
      have hmem : y ∈ spansFromAlign (sp + 1) (tp + 1) rest :=
        List.mem_of_mem_head? hy
      have hb := spansFromAlign_bounds rest (sp + 1) (tp + 1) h3 y hmem
      have hb1 := hb.1
      have hb2 := hb.2.2.2.1
      exact ⟨by show sp < y.src_start; omega, by show tp < y.tgt_start; omega⟩
    · simpa using htail

theorem spansFromAlign_cover_src :
    ∀ (pts : List (Nat × Nat)) (ps pt i : Nat), validPts ps pt pts →
      ps ≤ i → i < lastFst ps pts →
      ((∃ e ∈ spansFromAlign ps pt pts, e.src_start ≤ i ∧ i < e.src_end) ↔
        ∀ p ∈ pts, p.1 ≠ i) := by
  intro pts
  induction pts with
  | nil =>
    intro ps pt i _ hle hlt
    exact absurd hlt (by simp [lastFst]; omega)
  | cons q rest ih =>
    intro ps pt i h hle hlt
    obtain ⟨sp, tp⟩ := q
    obtain ⟨h1, h2, h3⟩ := h
    rw [lastFst_cons] at hlt
    by_cases hcase : i < sp
    · apply iff_of_true
      · refine ⟨⟨ps, sp, pt, tp, "UNK"⟩, ?_, hle, hcase⟩
        simp only [spansFromAlign, List.mem_append]
        left
        rw [if_pos (by omega)]
        simp
      · intro p hp
        rcases List.mem_cons.mp hp with rfl | hp
        · show sp ≠ i; omega
        · have := validPts_mem rest (sp + 1) (tp + 1) h3 p hp
          omega
    · by_cases hcase2 : i = sp
      · subst hcase2
        apply iff_of_false
        · rintro ⟨e, he, hes, hee⟩
          simp only [spansFromAlign, List.mem_append] at he
          rcases he with he | he
          · split at he
            · simp only [List.mem_singleton] at he
              subst he
              simp only at hes hee
              omega
            · simp at he
          · have hb := spansFromAlign_bounds rest (i + 1) (tp + 1) h3 e he
            omega
        · intro hall
          exact hall (i, tp) (by simp) rfl
      · have hsp : sp < i := by omega
        have hlt2 : i < lastFst (sp + 1) rest := by
          cases rest with
          | nil => rw [lastFst] at hlt; omega
          | cons q2 t2 =>
            obtain ⟨sq, tq⟩ := q2
            rw [lastFst_cons] at hlt ⊢
            exact hlt
        have hiff := ih (sp + 1) (tp + 1) i h3 (by omega) hlt2
        constructor
        · rintro ⟨e, he, hes, hee⟩
          simp only [spansFromAlign, List.mem_append] at he
          rcases he with he | he
          · split at he
            · simp only [List.mem_singleton] at he
              subst he
              simp only at hes hee
              omega
            · simp at he
          · intro p hp
            rcases List.mem_cons.mp hp with rfl | hp
            · show sp ≠ i; omega
            · exact hiff.mp ⟨e, he, hes, hee⟩ p hp
        · intro hall
          obtain ⟨e, he, hes, hee⟩ := hiff.mpr
            (fun p hp => hall p (List.mem_cons_of_mem _ hp))
          refine ⟨e, ?_, hes, hee⟩
          simp only [spansFromAlign, List.mem_append]
          right
          exact he

theorem spansFromAlign_swap :
    ∀ (pts : List (Nat × Nat)) (ps pt : Nat),
      (spansFromAlign ps pt pts).map EditSpan.swapSides =
        spansFromAlign pt ps (pts.map Prod.swap) := by
  intro pts
  induction pts with
  | nil => intro ps pt; simp [spansFromAlign]
  | cons q rest ih =>
    intro ps pt
    obtain ⟨sp, tp⟩ := q
    simp only [List.map_cons, Prod.swap_prod_mk, spansFromAlign, List.map_append]
    rw [ih (sp + 1) (tp + 1)]
    congr 1
    by_cases hg : ps ≠ sp ∨ pt ≠ tp
    · rw [if_pos hg, if_pos (Or.symm hg)]
      simp [EditSpan.swapSides]
    · rw [if_neg hg, if_neg (fun hc => hg (Or.symm hc))]
      simp

theorem validPts_swap :
    ∀ (pts : List (Nat × Nat)) (ps pt : Nat), validPts ps pt pts →
      validPts pt ps (pts.map Prod.swap) := by
  intro pts
  induction pts with
  | nil => intro ps pt _; trivial
  | cons q rest ih =>
    intro ps pt h
    obtain ⟨sp, tp⟩ := q
    obtain ⟨h1, h2, h3⟩ := h
    exact ⟨h2, h1, ih (sp + 1) (tp + 1) h3⟩

theorem lastFst_map_swap :
    ∀ (pts : List (Nat × Nat)) (d : Nat),
      lastFst d (pts.map Prod.swap) = lastSnd d pts := by
  intro pts
  induction pts with
  | nil => intro d; rfl
  | cons q rest ih =>
    intro d
    obtain ⟨sp, tp⟩ := q
    simp only [List.map_cons, Prod.swap_prod_mk, lastFst_cons, lastSnd_cons]
    exact ih tp

theorem spansFromAlign_cover_tgt :
    ∀ (pts : List (Nat × Nat)) (ps pt j : Nat), validPts ps pt pts →
      pt ≤ j → j < lastSnd pt pts →
      ((∃ e ∈ spansFromAlign ps pt pts, e.tgt_start ≤ j ∧ j < e.tgt_end) ↔
        ∀ p ∈ pts, p.2 ≠ j) := by
  intro pts ps pt j h hle hlt
  have hsw := spansFromAlign_cover_src (pts.map Prod.swap) pt ps j
    (validPts_swap pts ps pt h) hle (by rwa [lastFst_map_swap])
  rw [← spansFromAlign_swap] at hsw
  constructor
  · intro ⟨e, he, hts, hte⟩ p hp
    have := hsw.mp ⟨e.swapSides, List.mem_map_of_mem _ he, hts, hte⟩
    have hps := this p.swap (List.mem_map_of_mem _ hp)
    simpa using hps
  · intro hall
    obtain ⟨e2, he2, hts, hte⟩ := hsw.mpr (by
      intro p hp
      simp only [List.mem_map] at hp
      obtain ⟨p0, hp0, rfl⟩ := hp
      simpa using hall p0 hp0)
    simp only [List.mem_map] at he2
    obtain ⟨e, he, rfl⟩ := he2
    exact ⟨e, he, hts, hte⟩

/-- **C1.** The aligner output invariant of `get_edit_spans`: the spans are
strictly increasing and non-overlapping in both the source and the target
index order (consecutive spans are even separated by at least one matched
position); every span is a well-formed range within the two sequences; no
span has both sides empty; and a source (resp. target) index below the
sequence length is covered by a span exactly when it is not the
source (resp. target) component of an alignment point — so the spans
together with the matched alignment points exactly cover `0..len(S)` and
`0..len(T)`. -/
theorem get_edit_spans_invariant (S T : List Token) :
    List.Chain'
      (fun e1 e2 => e1.src_end < e2.src_start ∧ e1.tgt_end < e2.tgt_start)
      (get_edit_spans S T) ∧
    (∀ e ∈ get_edit_spans S T,
      e.src_start ≤ e.src_end ∧ e.src_end ≤ S.length ∧
      e.tgt_start ≤ e.tgt_end ∧ e.tgt_end ≤ T.length) ∧
    (∀ e ∈ get_edit_spans S T,
      e.src_start < e.src_end ∨ e.tgt_start < e.tgt_end) ∧
    (∀ i, i < S.length →
      ((∃ e ∈ get_edit_spans S T, e.src_start ≤ i ∧ i < e.src_end) ↔
        ∀ p ∈ alignPoints S T, p.1 ≠ i)) ∧
    (∀ j, j < T.length →
      ((∃ e ∈ get_edit_spans S T, e.tgt_start ≤ j ∧ j < e.tgt_end) ↔
        ∀ p ∈ alignPoints S T, p.2 ≠ j)) := by
  obtain ⟨hv, hf, hs⟩ := alignPoints_valid S T
  unfold get_edit_spans
  refine ⟨spansFromAlign_chain _ 0 0 hv, ?_, ?_, ?_, ?_⟩
  · intro e he
    have hb := spansFromAlign_bounds _ 0 0 hv e he
    rw [hf] at hb
    rw [hs] at hb
    exact ⟨hb.2.1, hb.2.2.1, hb.2.2.2.2.1, hb.2.2.2.2.2.1⟩
  · intro e he
    exact (spansFromAlign_bounds _ 0 0 hv e he).2.2.2.2.2.2
  · intro i hi
    exact spansFromAlign_cover_src _ 0 0 i hv (Nat.zero_le _) (by omega)
  · intro j hj
    exact spansFromAlign_cover_tgt _ 0 0 j hv (Nat.zero_le _) (by omega)

/-- Witness for C1: the coverage invariant instantiated at two concrete
one-token sequences and source index 0. -/
theorem get_edit_spans_invariant_witness :
    (∃ e ∈ get_edit_spans [sampleTok "Dog" 1 .NOUN []]
        [sampleTok "cat" 2 .VERB []],
      e.src_start ≤ 0 ∧ 0 < e.src_end) ↔
      ∀ p ∈ alignPoints [sampleTok "Dog" 1 .NOUN []]
        [sampleTok "cat" 2 .VERB []], p.1 ≠ 0 :=
  (get_edit_spans_invariant _ _).2.2.2.1 0 (by decide)

/-! ## Theorems: the two-sided rule (C3, C4) -/

theorem dedup_all_eq {α : Type} [DecidableEq α] :
    ∀ (l : List α) (p : α), l ≠ [] → (∀ x ∈ l, x = p) → l.dedup = [p] := by
  intro l
  induction l with
  | nil => intro p h _; exact absurd rfl h
  | cons x t ih =>
    intro p _ hall
    have hx : x = p := hall x (by simp)
    cases t with
    | nil => rw [hx]; simp
    | cons y t2 =>
      have hy : y = p := hall y (by simp)
      rw [List.dedup_cons_of_mem
        (show x ∈ y :: t2 by rw [hx, hy]; exact List.mem_cons_self _ _)]
      exact ih p (by simp) (fun z hz => hall z (List.mem_cons_of_mem _ hz))

/-- **C3** counterexample: two non-empty spans consisting entirely of AUX
tokens satisfy the claim's premise (neither verbal nor nominal on both
sides) and share the single target part-of-speech tag AUX, yet the
two-sided rule returns `VERB:TENSE`, not `VERB`: the both-AUX check fires
first. -/
theorem two_sided_shared_pos_counterexample :
    is_verbal_span [sampleTok "is" 5 .AUX []] = false ∧
    is_noun_span [sampleTok "is" 5 .AUX []] = false ∧
    (∀ t ∈ [sampleTok "is" 5 .AUX []], t.pos = UPos.AUX) ∧
    get_two_sided_tag [sampleTok "is" 5 .AUX []] [sampleTok "is" 5 .AUX []]
      = "VERB:TENSE" ∧
    ("VERB:TENSE" : String) ≠ "VERB" := by
  refine ⟨by decide, by decide, by decide, by decide, by decide⟩

/-- **C3** (amended).  In the two-sided rule, for non-empty regular-token
lists where neither the verbal nor the nominal condition holds on both
sides *and not both spans consist entirely of AUX tokens*, if all
target-span tokens share one part-of-speech tag then the returned tag is
that tag with AUX mapped to VERB; two spans consisting entirely of AUX
tokens instead receive the tag `VERB:TENSE` from the both-AUX check that
precedes the shared-tag rule. -/
theorem two_sided_shared_pos_amended :
    (∀ (src tgt : List Token) (p : UPos),
      src ≠ [] → tgt ≠ [] →
      ¬(is_verbal_span src = true ∧ is_verbal_span tgt = true) →
      ¬(is_noun_span src = true ∧ is_noun_span tgt = true) →
      ¬(is_aux_span src = true ∧ is_aux_span tgt = true) →
      (∀ t ∈ tgt, t.pos = p) →
      get_two_sided_tag src tgt =
        if p = UPos.AUX then "VERB" else posToString p) ∧
    (∀ src tgt : List Token, is_aux_span src = true → is_aux_span tgt = true →
      get_two_sided_tag src tgt = "VERB:TENSE") := by
  constructor
  · intro src tgt p hsrc htgt hnv hnn hna hall
    unfold get_two_sided_tag
    rw [if_neg (by simpa [Bool.and_eq_true] using hna),
      if_neg (by simpa [Bool.and_eq_true] using hnn),
      if_neg (by simpa [Bool.and_eq_true] using hnv)]
    rw [dedup_all_eq (tgt.map Token.pos) p (by simpa using htgt)
      (by intro x hx; obtain ⟨t, ht, rfl⟩ := List.mem_map.mp hx; exact hall t ht)]
  · intro src tgt hs ht
    unfold get_two_sided_tag
    rw [if_pos (by rw [hs, ht]; rfl)]

/-- Witness for C3 (amended) at a concrete DET-token source span and
AUX-token target span: the returned tag is AUX mapped to VERB. -/
theorem two_sided_shared_pos_amended_witness :
    get_two_sided_tag [sampleTok "the" 7 .DET []] [sampleTok "is" 5 .AUX []]
      = "VERB" :=
  (two_sided_shared_pos_amended.1 [sampleTok "the" 7 .DET []]
    [sampleTok "is" 5 .AUX []] .AUX
    (by decide) (by decide) (by decide) (by decide) (by decide)
    (by decide)).trans (by decide)

theorem is_verbal_not_aux (l : List Token) (h : is_verbal_span l = true) :
    is_aux_span l = false := by
  simp only [is_verbal_span, Bool.and_eq_true, List.any_eq_true,
    decide_eq_true_eq] at h
  obtain ⟨-, t, ht, htv⟩ := h
  rw [Bool.eq_false_iff]
  intro haux
  simp only [is_aux_span, pos_is_subset, List.all_eq_true] at haux
  have := haux t ht
  rw [htv] at this
  simp at this

theorem is_verbal_not_noun (l : List Token) (h : is_verbal_span l = true) :
    is_noun_span l = false := by
  simp only [is_verbal_span, Bool.and_eq_true, List.any_eq_true,
    decide_eq_true_eq] at h
  obtain ⟨-, t, ht, htv⟩ := h
  rw [Bool.eq_false_iff]
  intro hnoun
  simp only [is_noun_span, pos_is_subset, Bool.and_eq_true,
    List.all_eq_true] at hnoun
  have := hnoun.1 t ht
  rw [htv] at this
  simp at this

theorem verbalLoop_eq_find :
    ∀ pairs : List (Token × Token),
      verbalLoop pairs =
        match pairs.find? (fun q => !morph_match q.1 q.2 "Tense" ||
            (!morph_match q.1 q.2 "Number" && !morph_match q.1 q.2 "Person")) with
        | none => "VERB"
        | some q =>
          if morph_match q.1 q.2 "Tense" then "VERB:SVA" else "VERB:TENSE" := by
  intro pairs
  induction pairs with
  | nil => rfl
  | cons q rest ih =>
    obtain ⟨s, t⟩ := q
    by_cases hT : morph_match s t "Tense"
    · by_cases hNP : morph_match s t "Number" = false ∧
          morph_match s t "Person" = false
      · rw [List.find?_cons_of_pos _ (by simp [hT, hNP.1, hNP.2])]
        simp [verbalLoop, hT, hNP.1, hNP.2]
      · have hcond : (!morph_match s t "Number" &&
            !morph_match s t "Person") = false := by
          cases hN : morph_match s t "Number" <;>
            cases hP : morph_match s t "Person" <;> simp_all
        rw [List.find?_cons_of_neg _ (by simp [hT, hcond])]
        rw [← ih]
        simp only [verbalLoop, hT]
        simp [hcond]
    · rw [List.find?_cons_of_pos _ (by simp [hT])]
      simp [verbalLoop, hT]

/-- **C4** counterexample: both spans verbal, two positionally paired
same-lemma VERB pairs; the first pair matches in Tense but mismatches in
both Number and Person, the second pair mismatches in Tense.  The claim
predicts `VERB:TENSE` (Tense priority across pairs), but the loop stops at
the first pair and returns `VERB:SVA`. -/
theorem verbal_tense_priority_counterexample :
    is_verbal_span [sampleTok "runs" 1 .VERB
        [("Number", ["Sing"]), ("Person", ["3"]), ("Tense", ["Pres"])],
      sampleTok "walked" 2 .VERB [("Tense", ["Past"])]] = true ∧
    is_verbal_span [sampleTok "run" 1 .VERB
        [("Number", ["Plur"]), ("Person", ["1"]), ("Tense", ["Pres"])],
      sampleTok "walks" 2 .VERB [("Tense", ["Pres"])]] = true ∧
    (sampleTok "walked" 2 .VERB [("Tense", ["Past"])],
      sampleTok "walks" 2 .VERB [("Tense", ["Pres"])]) ∈
      match_up_pos_tokens
        [sampleTok "runs" 1 .VERB
            [("Number", ["Sing"]), ("Person", ["3"]), ("Tense", ["Pres"])],
          sampleTok "walked" 2 .VERB [("Tense", ["Past"])]]
        [sampleTok "run" 1 .VERB
            [("Number", ["Plur"]), ("Person", ["1"]), ("Tense", ["Pres"])],
          sampleTok "walks" 2 .VERB [("Tense", ["Pres"])]] UPos.VERB ∧
    morph_match (sampleTok "walked" 2 .VERB [("Tense", ["Past"])])
      (sampleTok "walks" 2 .VERB [("Tense", ["Pres"])]) "Tense" = false ∧
    get_two_sided_tag
      [sampleTok "runs" 1 .VERB
          [("Number", ["Sing"]), ("Person", ["3"]), ("Tense", ["Pres"])],
        sampleTok "walked" 2 .VERB [("Tense", ["Past"])]]
      [sampleTok "run" 1 .VERB
          [("Number", ["Plur"]), ("Person", ["1"]), ("Tense", ["Pres"])],
        sampleTok "walks" 2 .VERB [("Tense", ["Pres"])]] = "VERB:SVA" ∧
    ("VERB:SVA" : String) ≠ "VERB:TENSE" := by
  refine ⟨by decide, by decide, by decide, by decide, by decide, by decide⟩

/-- **C4** (amended).  In the verbal-verbal branch the same-lemma VERB pairs
are examined in positional order and the *first* pair exhibiting a Tense
mismatch or a simultaneous Number-and-Person mismatch decides the tag
(`VERB:TENSE` for the Tense mismatch, else `VERB:SVA`); `VERB` when no pair
exhibits either.  In particular an earlier pair's Number-and-Person
mismatch takes priority over a later pair's Tense mismatch. -/
theorem verbal_branch_first_mismatch (src tgt : List Token)
    (hs : is_verbal_span src = true) (ht : is_verbal_span tgt = true) :
    get_two_sided_tag src tgt =
      match (match_up_pos_tokens src tgt UPos.VERB).find?
          (fun q => !morph_match q.1 q.2 "Tense" ||
            (!morph_match q.1 q.2 "Number" && !morph_match q.1 q.2 "Person")) with
      | none => "VERB"
      | some q =>
        if morph_match q.1 q.2 "Tense" then "VERB:SVA" else "VERB:TENSE" := by
  unfold get_two_sided_tag
  rw [if_neg (by rw [is_verbal_not_aux src hs]; simp),
    if_neg (by rw [is_verbal_not_noun src hs]; simp),
    if_pos (by rw [hs, ht]; rfl)]
  exact verbalLoop_eq_find _

/-- Witness for C4 (amended) at the concrete two-pair verbal spans: the
first triggering pair mismatches Number and Person but not Tense, so the
tag is `VERB:SVA`. -/
theorem verbal_branch_first_mismatch_witness :
    get_two_sided_tag
      [sampleTok "runs" 1 .VERB
          [("Number", ["Sing"]), ("Person", ["3"]), ("Tense", ["Pres"])],
        sampleTok "walked" 2 .VERB [("Tense", ["Past"])]]
      [sampleTok "run" 1 .VERB
          [("Number", ["Plur"]), ("Person", ["1"]), ("Tense", ["Pres"])],
        sampleTok "walks" 2 .VERB [("Tense", ["Pres"])]] = "VERB:SVA" :=
  (verbal_branch_first_mismatch
    [sampleTok "runs" 1 .VERB
        [("Number", ["Sing"]), ("Person", ["3"]), ("Tense", ["Pres"])],
      sampleTok "walked" 2 .VERB [("Tense", ["Past"])]]
    [sampleTok "run" 1 .VERB
        [("Number", ["Plur"]), ("Person", ["1"]), ("Tense", ["Pres"])],
      sampleTok "walks" 2 .VERB [("Tense", ["Pres"])]]
    (by decide) (by decide)).trans (by decide)

/-! ## Theorems: tag ranges of the classification rules -/

theorem posToString_ne_cascade (p : UPos) :
    posToString p ≠ "ORTH" ∧ posToString p ≠ "WO" ∧ posToString p ≠ "SPELL" := by
  cases p <;> exact ⟨by decide, by decide, by decide⟩

theorem posToString_infl_ne_cascade (p : UPos) :
    posToString p ++ ":INFL" ≠ "ORTH" ∧ posToString p ++ ":INFL" ≠ "WO" := by
  cases p <;> exact ⟨by decide, by decide⟩

theorem nounLoop_cases (pairs : List (Token × Token)) :
    nounLoop pairs = "NOUN:NUM" ∨ nounLoop pairs = "NOUN" := by
  induction pairs with
  | nil => right; rfl
  | cons q rest ih =>
    obtain ⟨s, t⟩ := q
    unfold nounLoop
    split
    · left; rfl
    · exact ih

theorem verbalLoop_cases (pairs : List (Token × Token)) :
    verbalLoop pairs = "VERB:TENSE" ∨ verbalLoop pairs = "VERB:SVA" ∨
      verbalLoop pairs = "VERB" := by
  induction pairs with
  | nil => right; right; rfl
  | cons q rest ih =>
    obtain ⟨s, t⟩ := q
    unfold verbalLoop
    split
    · left; rfl
    split
    · right; left; rfl
    · exact ih

theorem get_two_sided_tag_cases (src tgt : List Token) :
    get_two_sided_tag src tgt ∈
        (["VERB:TENSE", "NOUN:NUM", "NOUN", "VERB:SVA", "VERB", "OTHER"] :
          List String) ∨
      ∃ p, get_two_sided_tag src tgt = posToString p := by
  unfold get_two_sided_tag
  split
  · left; simp
  split
  · rcases nounLoop_cases (match_up_pos_tokens src tgt .NOUN) with h | h <;>
      rw [h] <;> left <;> simp
  split
  · rcases verbalLoop_cases (match_up_pos_tokens src tgt .VERB) with h | h | h <;>
      rw [h] <;> left <;> simp
  split
  · split
    · left; simp
    · right; exact ⟨_, rfl⟩
  · left; simp

theorem get_two_sided_tag_ne_cascade (src tgt : List Token) :
    get_two_sided_tag src tgt ≠ "ORTH" ∧ get_two_sided_tag src tgt ≠ "WO" ∧
      get_two_sided_tag src tgt ≠ "SPELL" := by
  rcases get_two_sided_tag_cases src tgt with h | ⟨p, h⟩
  · simp at h
    rcases h with h | h | h | h | h | h <;> rw [h] <;>
      exact ⟨by decide, by decide, by decide⟩
  · rw [h]
    exact posToString_ne_cascade p

theorem get_one_sided_tag_ne_cascade (tokens : List Token) :
    get_one_sided_tag tokens ≠ "ORTH" ∧ get_one_sided_tag tokens ≠ "WO" := by
  unfold get_one_sided_tag
  split
  · exact ⟨by decide, by decide⟩
  split
  · exact ⟨(posToString_ne_cascade _).1, (posToString_ne_cascade _).2.1⟩
  · split
    · exact ⟨by decide, by decide⟩
    · exact ⟨by decide, by decide⟩

theorem get_one2one_tag_ne_cascade (c : GenericClassifier)
    (s t : Token) :
    get_one2one_tag c s t ≠ "ORTH" ∧ get_one2one_tag c s t ≠ "WO" := by
  unfold get_one2one_tag
  by_cases h1 : suggestionsOf c s.text ≠ [] ∧
      strLower ((suggestionsOf c s.text).headD "") ≠ strLower s.text
  · rw [if_pos h1]
    by_cases h2 : s.lemmaId = t.lemmaId
    · rw [if_pos h2]
      by_cases h3 : s.pos = t.pos ∧ (s.pos = UPos.NOUN ∨ s.pos = UPos.VERB)
      · rw [if_pos h3]
        exact posToString_infl_ne_cascade _
      · rw [if_neg h3]
        exact ⟨by decide, by decide⟩
    · rw [if_neg h2]
      by_cases h4 : ((suggestionsOf c s.text).any
          (fun x => strLower x = strLower t.text)) = true
      · rw [if_pos h4]
        exact ⟨by decide, by decide⟩
      · rw [if_neg h4]
        by_cases h5 : relativeLev s.text t.text < 3/10
        · rw [if_pos h5]
          exact ⟨by decide, by decide⟩
        · rw [if_neg h5]
          exact ⟨(get_two_sided_tag_ne_cascade _ _).1,
            (get_two_sided_tag_ne_cascade _ _).2.1⟩
  · rw [if_neg h1]
    by_cases h6 : s.lemmaId = t.lemmaId ∧ s.pos ≠ t.pos
    · rw [if_pos h6]
      exact ⟨by decide, by decide⟩
    · rw [if_neg h6]
      exact ⟨(get_two_sided_tag_ne_cascade _ _).1,
        (get_two_sided_tag_ne_cascade _ _).2.1⟩

theorem classify_dispatch_ne (c : GenericClassifier) (l1 l2 : List Token) :
    (match l1, l2 with
      | [s], [t] => get_one2one_tag c s t
      | src2, tgt2 => get_two_sided_tag src2 tgt2) ≠ "ORTH" ∧
    (match l1, l2 with
      | [s], [t] => get_one2one_tag c s t
      | src2, tgt2 => get_two_sided_tag src2 tgt2) ≠ "WO" := by
  rcases l1 with _ | ⟨a, _ | ⟨b, l1t⟩⟩ <;> rcases l2 with _ | ⟨x, _ | ⟨y, l2t⟩⟩ <;>
    first
      | exact get_one2one_tag_ne_cascade c _ _
      | exact ⟨(get_two_sided_tag_ne_cascade _ _).1,
          (get_two_sided_tag_ne_cascade _ _).2.1⟩

theorem classify_branches (c : GenericClassifier) (src tgt : List Token) :
    (is_orth_error src tgt = true ∧
      classify_single_span c src tgt = "ORTH") ∨
    (is_orth_error src tgt = false ∧ is_wo_error src tgt = true ∧
      classify_single_span c src tgt = "WO") ∨
    (is_orth_error src tgt = false ∧ is_wo_error src tgt = false ∧
      is_punct_error src tgt = true ∧
      classify_single_span c src tgt = "PUNCT") ∨
    (is_orth_error src tgt = false ∧ is_wo_error src tgt = false ∧
      is_punct_error src tgt = false ∧
      is_orth_error (regularTokens src) (regularTokens tgt) = true ∧
      classify_single_span c src tgt = "NUM") ∨
    (is_orth_error src tgt = false ∧ is_wo_error src tgt = false ∧
      is_punct_error src tgt = false ∧
      is_orth_error (regularTokens src) (regularTokens tgt) = false ∧
      classify_single_span c src tgt ≠ "ORTH" ∧
      classify_single_span c src tgt ≠ "WO") := by
  by_cases hO : is_orth_error src tgt = true
  · left
    exact ⟨hO, by unfold classify_single_span; rw [if_pos hO]⟩
  rw [Bool.not_eq_true] at hO
  by_cases hW : is_wo_error src tgt = true
  · right; left
    refine ⟨hO, hW, ?_⟩
    unfold classify_single_span
    rw [if_neg (by simp [hO]), if_pos hW]
  rw [Bool.not_eq_true] at hW
  by_cases hP : is_punct_error src tgt = true
  · right; right; left
    refine ⟨hO, hW, hP, ?_⟩
    unfold classify_single_span
    rw [if_neg (by simp [hO]), if_neg (by simp [hW]), if_pos hP]
  rw [Bool.not_eq_true] at hP
  by_cases hN : is_orth_error (regularTokens src) (regularTokens tgt) = true
  · right; right; right; left
    refine ⟨hO, hW, hP, hN, ?_⟩
    unfold classify_single_span
    rw [if_neg (by simp [hO]), if_neg (by simp [hW]), if_neg (by simp [hP]),
      if_pos hN]
  rw [Bool.not_eq_true] at hN
  right; right; right; right
  refine ⟨hO, hW, hP, hN, ?_⟩
  unfold classify_single_span
  rw [if_neg (by simp [hO]), if_neg (by simp [hW]), if_neg (by simp [hP]),
    if_neg (by simp [hN])]
  by_cases hE1 : regularTokens src = []
  · rw [if_pos hE1]
    exact get_one_sided_tag_ne_cascade _
  rw [if_neg hE1]
  by_cases hE2 : regularTokens tgt = []
  · rw [if_pos hE2]
    exact get_one_sided_tag_ne_cascade _
  rw [if_neg hE2]
  exact classify_dispatch_ne c _ _

/-- **C5** counterexample: a span replacing the number word "one" by "three"
(both tagged with the part-of-speech NUM, neither a digit nor punctuation
token) fails the digit-stripped ORTH condition, yet `classify_single_span`
returns `NUM` — produced by the part-of-speech rules of the two-sided
fallback, not by the cascade's fourth rule.  So NUM is *not* returned
exactly when the stripped ORTH condition holds. -/
theorem classify_cascade_counterexample :
    classify_single_span ⟨none⟩ [sampleTok "one" 11 .NUM []]
      [sampleTok "three" 12 .NUM []] = "NUM" ∧
    is_orth_error (regularTokens [sampleTok "one" 11 .NUM []])
      (regularTokens [sampleTok "three" 12 .NUM []]) = false := by
  exact ⟨by decide, by decide⟩

/-- **C5** (amended).  The first four cascade rules are evaluated in the
fixed order ORTH, WO, PUNCT, NUM with first match winning: the result is
`ORTH` exactly when the concatenated lower-cased texts agree; otherwise
`WO` exactly when the lower-cased text sets agree; otherwise `PUNCT` if the
punctuation-stripped ORTH condition holds; otherwise `NUM` if the
digit-and-punctuation-stripped ORTH condition holds.  For PUNCT and NUM
only the forward direction holds: both strings are also part-of-speech
tags, so the later rules can return them for spans that fail the
corresponding conditions. -/
theorem classify_cascade_amended (c : GenericClassifier)
    (src tgt : List Token) :
    (classify_single_span c src tgt = "ORTH" ↔ is_orth_error src tgt = true) ∧
    (is_orth_error src tgt = false →
      (classify_single_span c src tgt = "WO" ↔ is_wo_error src tgt = true)) ∧
    (is_orth_error src tgt = false → is_wo_error src tgt = false →
      is_punct_error src tgt = true →
      classify_single_span c src tgt = "PUNCT") ∧
    (is_orth_error src tgt = false → is_wo_error src tgt = false →
      is_punct_error src tgt = false →
      is_orth_error (regularTokens src) (regularTokens tgt) = true →
      classify_single_span c src tgt = "NUM") := by
  have hb := classify_branches c src tgt
  refine ⟨⟨?_, ?_⟩, fun hO => ⟨?_, ?_⟩, fun hO hW hP => ?_, fun hO hW hP hN => ?_⟩
  · intro h
    rcases hb with ⟨h1, h2⟩ | ⟨h1, h2, h3⟩ | ⟨h1, h2, h3, h4⟩ |
        ⟨h1, h2, h3, h4, h5⟩ | ⟨h1, h2, h3, h4, h5, h6⟩
    · exact h1
    · exact absurd (h.symm.trans h3) (by decide)
    · exact absurd (h.symm.trans h4) (by decide)
    · exact absurd (h.symm.trans h5) (by decide)
    · exact absurd h h5
  · intro h1
    rcases hb with ⟨h2, h3⟩ | ⟨h2, h3⟩ | ⟨h2, h3⟩ | ⟨h2, h3⟩ | ⟨h2, h3⟩
    · exact h3
    all_goals (rw [h1] at h2; cases h2)
  · intro h
    rcases hb with ⟨h1, h2⟩ | ⟨h1, h2, h3⟩ | ⟨h1, h2, h3, h4⟩ |
        ⟨h1, h2, h3, h4, h5⟩ | ⟨h1, h2, h3, h4, h5, h6⟩
    · rw [hO] at h1; cases h1
    · exact h2
    · exact absurd (h.symm.trans h4) (by decide)
    · exact absurd (h.symm.trans h5) (by decide)
    · exact absurd h h6
  · intro h1
    rcases hb with ⟨h2, h3⟩ | ⟨h2, h3, h4⟩ | ⟨h2, h3, h4⟩ | ⟨h2, h3, h4⟩ |
        ⟨h2, h3, h4⟩
    · rw [hO] at h2; cases h2
    · exact h4
    · rw [h1] at h3; cases h3
    · rw [h1] at h3; cases h3
    · rw [h1] at h3; cases h3
  · rcases hb with ⟨h1, h2⟩ | ⟨h1, h2, h3⟩ | ⟨h1, h2, h3, h4⟩ |
        ⟨h1, h2, h3, h4, h5⟩ | ⟨h1, h2, h3, h4, h5, h6⟩
    · rw [hO] at h1; cases h1
    · rw [hW] at h2; cases h2
    · exact h4
    · rw [hP] at h3; cases h3
    · rw [hP] at h3; cases h3
  · rcases hb with ⟨h1, h2⟩ | ⟨h1, h2, h3⟩ | ⟨h1, h2, h3, h4⟩ |
        ⟨h1, h2, h3, h4, h5⟩ | ⟨h1, h2, h3, h4, h5, h6⟩
    · rw [hO] at h1; cases h1
    · rw [hW] at h2; cases h2
    · rw [hP] at h3; cases h3
    · exact h5
    · rw [hN] at h4; cases h4

/-- Witness for C5 (amended): a case-only single-token difference is
classified ORTH. -/
theorem classify_cascade_amended_witness :
    classify_single_span ⟨none⟩ [sampleTok "Hello" 3 .INTJ []]
      [sampleTok "hello" 3 .INTJ []] = "ORTH" :=
  (classify_cascade_amended ⟨none⟩ [sampleTok "Hello" 3 .INTJ []]
    [sampleTok "hello" 3 .INTJ []]).1.mpr (by decide)

/-- **C6.** In the one-to-one rule, when the speller returned suggestions
whose top entry differs case-insensitively from the source text, the lemmas
differ, and no suggestion equals the target text case-insensitively, the
tag `SPELL` is returned if and only if
`2·d / (len(source_text) + len(target_text)) < 0.3`, where `d` is the
character-level Levenshtein distance computed by the generic matrix routine
with a binary 0/1 substitution cost. -/
theorem one2one_spell_iff (c : GenericClassifier) (s t : Token)
    (h1 : suggestionsOf c s.text ≠ [])
    (h2 : strLower ((suggestionsOf c s.text).headD "") ≠ strLower s.text)
    (h3 : s.lemmaId ≠ t.lemmaId)
    (h4 : ∀ x ∈ suggestionsOf c s.text, strLower x ≠ strLower t.text) :
    (get_one2one_tag c s t = "SPELL" ↔
      2 * levenshtein_distance s.text.toList t.text.toList
          (fun x y => if x ≠ y then 1 else 0) /
        ((s.text.length : ℚ) + (t.text.length : ℚ)) < 3/10) := by
  unfold get_one2one_tag
  rw [if_pos ⟨h1, h2⟩, if_neg h3, if_neg (by
    simp only [List.any_eq_true, decide_eq_true_eq]
    rintro ⟨x, hx, hlow⟩
    exact h4 x hx hlow)]
  unfold relativeLev
  constructor
  · intro h
    by_contra hge
    rw [if_neg hge] at h
    exact (get_two_sided_tag_ne_cascade [s] [t]).2.2 h
  · intro h
    rw [if_pos h]

/-- Witness for C6 at a concrete classifier whose speller suggests `xyz`
for everything, and tokens `abcde`/`abcdz` with distinct lemmas. -/
theorem one2one_spell_iff_witness :
    (get_one2one_tag ⟨some fun _ => ["xyz"]⟩ (sampleTok "abcde" 1 .NOUN [])
        (sampleTok "abcdz" 2 .NOUN []) = "SPELL" ↔
      2 * levenshtein_distance "abcde".toList "abcdz".toList
          (fun x y => if x ≠ y then 1 else 0) /
        ((("abcde" : String).length : ℚ) + (("abcdz" : String).length : ℚ))
        < 3/10) :=
  one2one_spell_iff ⟨some fun _ => ["xyz"]⟩ (sampleTok "abcde" 1 .NOUN [])
    (sampleTok "abcdz" 2 .NOUN [])
    (by decide) (by decide) (by decide) (by decide)

/-- **C10.** A span in which every token on both sides is a punctuation or
digit token is classified by the first four cascade rules (the stripped
regular-token lists are both empty, so the NUM check compares empty strings
and fires at the latest); consequently the one-sided, one-to-one and
two-sided rules are never invoked with both regular-token lists empty, and
the one-sided rule always receives a non-empty token list (the guards give
its argument non-emptiness whenever the NUM check failed). -/
theorem punct_digit_spans_first_rules (c : GenericClassifier)
    (src tgt : List Token) :
    ((∀ t ∈ src, t.is_punct = true ∨ t.is_digit = true) →
      (∀ t ∈ tgt, t.is_punct = true ∨ t.is_digit = true) →
      classify_single_span c src tgt ∈
        (["ORTH", "WO", "PUNCT", "NUM"] : List String)) ∧
    (regularTokens src = [] →
      is_orth_error (regularTokens src) (regularTokens tgt) = false →
      regularTokens tgt ≠ []) ∧
    (regularTokens tgt = [] →
      is_orth_error (regularTokens src) (regularTokens tgt) = false →
      regularTokens src ≠ []) := by
  have hreg : ∀ l : List Token, (∀ t ∈ l, t.is_punct = true ∨ t.is_digit = true) →
      regularTokens l = [] := by
    intro l hl
    unfold regularTokens
    rw [List.filter_eq_nil]
    intro t ht
    rcases hl t ht with h | h <;> simp [h]
  refine ⟨fun hsrc htgt => ?_, fun h1 h2 => ?_, fun h1 h2 => ?_⟩
  · have hs := hreg src hsrc
    have ht := hreg tgt htgt
    have hnum : is_orth_error (regularTokens src) (regularTokens tgt) = true := by
      rw [hs, ht]; rfl
    rcases classify_branches c src tgt with ⟨h1, h2⟩ | ⟨h1, h2, h3⟩ |
        ⟨h1, h2, h3, h4⟩ | ⟨h1, h2, h3, h4, h5⟩ | ⟨h1, h2, h3, h4, h5, h6⟩
    · rw [h2]; simp
    · rw [h3]; simp
    · rw [h4]; simp
    · rw [h5]; simp
    · rw [hnum] at h4; cases h4
  · intro h3
    rw [h1, h3] at h2
    cases h2
  · intro h3
    rw [h1, h3] at h2
    cases h2

/-- Witness for C10 at a concrete punctuation-for-digit replacement span:
it is classified NUM. -/
theorem punct_digit_spans_first_rules_witness :
    classify_single_span ⟨none⟩ [samplePunct "." 1] [sampleDigit "3" 2] ∈
      (["ORTH", "WO", "PUNCT", "NUM"] : List String) :=
  (punct_digit_spans_first_rules ⟨none⟩ [samplePunct "." 1]
    [sampleDigit "3" 2]).1 (by decide) (by decide)

/-! ## Theorems: annotator error handling (C8) -/

/-- **C8** counterexample: on an annotator that was never initialized,
`annotate` called with a single string as `target_sentences` raises the
invalid-*state* error, not the invalid-argument error — the initialization
check runs first, so "raises an invalid-argument error whenever
target_sentences is a single string" fails as stated. -/
theorem annotate_errors_counterexample :
    (newAnnotator "en_core_web_sm" none).annotate "source" (.inl "target")
      = .error "Annotator not initialized." ∧
    ("Annotator not initialized." : String)
      ≠ "target_sentences must be a list, not a string." := by
  exact ⟨rfl, by decide⟩

/-- **C8** (amended).  `annotate` raises the invalid-state error whenever it
is called before initialization (regardless of the arguments); once
initialized it raises the invalid-argument error whenever
`target_sentences` is a single string rather than a sequence; and when
initialized and given a non-string sequence it returns an `Annotation`
without raising. -/
theorem annotate_errors_amended :
    (∀ (a : Annotator) (src : String) (tgts : String ⊕ List String),
      a.initialized = false →
      a.annotate src tgts = .error "Annotator not initialized.") ∧
    (∀ (a : Annotator) (load_spacy : String → String → Doc)
        (load_speller : String → String → List String) (src s : String),
      (a.initializeWith load_spacy load_speller).annotate src (.inl s)
        = .error "target_sentences must be a list, not a string.") ∧
    (∀ (a : Annotator) (load_spacy : String → String → Doc)
        (load_speller : String → String → List String) (src : String)
        (targets : List String),
      ∃ ann, (a.initializeWith load_spacy load_speller).annotate src
        (.inr targets) = .ok ann) := by
  refine ⟨fun a src tgts h => ?_, fun a ls lp src s => rfl,
    fun a ls lp src targets => ⟨_, rfl⟩⟩
  unfold Annotator.annotate
  rw [h]
  rfl

/-- Witness for C8 (amended): the invalid-state error on a concrete fresh
annotator. -/
theorem annotate_errors_amended_witness :
    (newAnnotator "en_core_web_sm" none).annotate "source"
      (.inr ["target"]) = .error "Annotator not initialized." :=
  annotate_errors_amended.1 (newAnnotator "en_core_web_sm" none) "source"
    (.inr ["target"]) rfl

/-! ## Theorems: the M2 no-op lines (C9) -/

theorem digitChar_ne_dash (k : Nat) : digitChar k ≠ '-' := by
  unfold digitChar
  split <;> decide

theorem natReprAux_head :
    ∀ (fuel n : Nat) (acc : List Char),
      ∃ k cs, natReprAux fuel n acc = digitChar k :: cs := by
  intro fuel
  induction fuel with
  | zero => intro n acc; exact ⟨n, acc, rfl⟩
  | succ fuel ih =>
    intro n acc
    unfold natReprAux
    split
    · exact ⟨n, acc, rfl⟩
    · exact ih (n / 10) (digitChar (n % 10) :: acc)

theorem string_data_append (s t : String) : (s ++ t).data = s.data ++ t.data :=
  rfl

theorem isNoopLine_noopLine (i : Nat) : isNoopLine (noopLine i) = true := by
  unfold isNoopLine noopLine
  rfl

theorem isNoopLine_false_of_data (l : String) (c : Char) (rest : List Char)
    (hdata : l.data = 'A' :: ' ' :: c :: rest) (hc : c ≠ '-') :
    isNoopLine l = false := by
  unfold isNoopLine
  rw [hdata]
  split
  · next heq =>
    injection heq with _ heq
    injection heq with _ heq
    injection heq with heq _
    exact absurd heq hc
  · rfl

theorem m2Line_not_noop (startN endN : Nat) (label target_text : String)
    (i : Nat) : isNoopLine (m2Line startN endN label target_text i) = false := by
  obtain ⟨k, cs, hk⟩ := natReprAux_head startN startN []
  refine isNoopLine_false_of_data _ (digitChar k)
    (cs ++ (" " ++ natRepr endN ++ "|||" ++ label ++ "|||" ++ target_text ++
      "|||REQUIRED|||-NONE-|||" ++ natRepr i).data) ?_ (digitChar_ne_dash k)
  show ("A " ++ natRepr startN ++ " " ++ natRepr endN ++ "|||" ++ label ++
    "|||" ++ target_text ++ "|||REQUIRED|||-NONE-|||" ++ natRepr i).data = _
  have h1 : ("A " ++ natRepr startN ++ " " ++ natRepr endN ++ "|||" ++ label ++
      "|||" ++ target_text ++ "|||REQUIRED|||-NONE-|||" ++ natRepr i) =
      "A " ++ natRepr startN ++ (" " ++ natRepr endN ++ "|||" ++ label ++
      "|||" ++ target_text ++ "|||REQUIRED|||-NONE-|||" ++ natRepr i) := by
    simp [String.append_assoc]
  rw [h1, string_data_append, string_data_append]
  show 'A' :: ' ' :: (natReprAux startN startN []) ++ _ = _
  rw [hk]
  simp

theorem isNoopLine_header (txt : String) :
    isNoopLine ("S " ++ txt) = false := by
  unfold isNoopLine
  rfl

theorem isNoopLine_empty : isNoopLine "" = false := rfl

theorem m2CharBlock_filter (src_doc : Doc) (i : Nat) (ts : TargetSentence) :
    (m2CharBlock src_doc i ts).filter isNoopLine =
      if ts.edit_spans.isEmpty then [noopLine i] else [] := by
  unfold m2CharBlock
  rw [List.filter_append]
  have h2 : (ts.edit_spans.map
      (fun e => m2CharSpanLine src_doc ts.doc e i)).filter isNoopLine = [] := by
    rw [List.filter_eq_nil]
    intro l hl
    obtain ⟨e, _, rfl⟩ := List.mem_map.mp hl
    unfold m2CharSpanLine
    split <;> simp [m2Line_not_noop]
  rw [h2, List.append_nil]
  split
  · simp [isNoopLine_noopLine]
  · rfl

theorem m2TokBlock_filter (i : Nat) (ts : TargetSentence) :
    (m2TokBlock i ts).filter isNoopLine =
      if ts.edit_spans.isEmpty then [noopLine i] else [] := by
  unfold m2TokBlock
  rw [List.filter_append]
  have h2 : (ts.edit_spans.map
      (fun e => m2TokSpanLine ts.doc e i)).filter isNoopLine = [] := by
    rw [List.filter_eq_nil]
    intro l hl
    obtain ⟨e, _, rfl⟩ := List.mem_map.mp hl
    unfold m2TokSpanLine
    simp [m2Line_not_noop]
  rw [h2, List.append_nil]
  split
  · simp [isNoopLine_noopLine]
  · rfl

theorem m2Blocks_filter (block : Nat → TargetSentence → List String)
    (hblock : ∀ i ts, (block i ts).filter isNoopLine =
      if ts.edit_spans.isEmpty then [noopLine i] else []) :
    ∀ (targets : List TargetSentence) (i : Nat),
      (m2Blocks block i targets).filter isNoopLine =
        (emptySpanIdx i targets).map noopLine := by
  intro targets
  induction targets with
  | nil => intro i; rfl
  | cons t rest ih =>
    intro i
    unfold m2Blocks emptySpanIdx
    rw [List.filter_append, hblock, ih (i + 1), List.map_append]
    congr 1
    split <;> rfl

/-- **C9.** Both M2 formatters emit, for each target sentence whose edit-span
list is empty, exactly one no-op line carrying that target's zero-based
annotator index, and no other no-op lines: filtering the emitted lines for
no-op lines yields precisely the no-op line of each empty target, in order.
The line list ends with the terminating blank line.  In particular an
Annotation with a single zero-span target emits the no-op line with
annotator id 0, and that line is the literal noop M2 line. -/
theorem m2_formatters_noop (ann : Annotation) :
    (m2CharLines ann).filter isNoopLine =
      (emptySpanIdx 0 ann.target_sentences).map noopLine ∧
    (m2TokLines ann).filter isNoopLine =
      (emptySpanIdx 0 ann.target_sentences).map noopLine ∧
    (m2CharLines ann).getLast? = some "" ∧
    (m2TokLines ann).getLast? = some "" ∧
    (∀ src_doc target_doc : Doc,
      m2CharLines ⟨src_doc, [⟨target_doc, []⟩]⟩ =
        ["S " ++ src_doc.text, noopLine 0, ""]) ∧
    noopLine 0 = "A -1 -1|||noop|||-NONE-|||REQUIRED|||-NONE-|||0" := by
  refine ⟨?_, ?_, ?_, ?_, fun sd td => rfl, rfl⟩
  · unfold m2CharLines
    rw [List.filter_cons_of_neg (by simp [isNoopLine_header]),
      List.filter_append]
    rw [m2Blocks_filter (m2CharBlock ann.source_doc)
      (m2CharBlock_filter ann.source_doc) ann.target_sentences 0]
    simp [isNoopLine_empty]
  · unfold m2TokLines
    rw [List.filter_cons_of_neg (by simp [isNoopLine_header]),
      List.filter_append]
    rw [m2Blocks_filter m2TokBlock m2TokBlock_filter ann.target_sentences 0]
    simp [isNoopLine_empty]
  · unfold m2CharLines
    rw [show ("S " ++ ann.source_doc.text) ::
        (m2Blocks (m2CharBlock ann.source_doc) 0 ann.target_sentences ++ [""]) =
      (("S " ++ ann.source_doc.text) ::
        m2Blocks (m2CharBlock ann.source_doc) 0 ann.target_sentences) ++ [""]
      from rfl]
    rw [List.getLast?_concat]
  · unfold m2TokLines
    rw [show ("S " ++ String.intercalate " "
          (ann.source_doc.tokens.map Token.text)) ::
        (m2Blocks m2TokBlock 0 ann.target_sentences ++ [""]) =
      (("S " ++ String.intercalate " "
          (ann.source_doc.tokens.map Token.text)) ::
        m2Blocks m2TokBlock 0 ann.target_sentences) ++ [""] from rfl]
    rw [List.getLast?_concat]
